import Mathlib

/-!
Verification of the `Instance` record class from
`easyjailbreak/datasets/instance.py`.

The Python class stores every named field in one flat, insertion-ordered
dictionary `self._data`; attribute-style and key-style access are routed
through `__getattr__` / `__setattr__` / `__getitem__` / `__setitem__`,
all of which read or write that dictionary.  We embed:

* `Dict`   — `self._data`, as an insertion-ordered association list
             (Python dicts preserve insertion order; overwriting keeps
             the key's position, new keys are appended);
* `Value`  — the Python values the class manipulates: `None`, strings,
             integers, references to heap-allocated lists, dictionaries
             (modelled by value: no claim observes dictionary aliasing),
             and opaque references to other `Instance` objects;
* `Heap`   — the store of list objects, so that list aliasing and the
             freshness of the list copies made by `Instance.copy` are
             expressible.  All operations modelled here only allocate
             (append) or mutate a single address.
-/

namespace EasyJailbreak

/-- Python values handled by the `Instance` class.  Lists are modelled as
references (`vlist a` points into the `Heap`), since the source relies on
list-object identity (`Instance.copy` makes fresh list objects).  Dicts
(`attack_attrs`) are modelled structurally by value, and other `Instance`
objects are modelled as opaque references (`vinst tag`). -/
inductive Value where
  | vnone : Value
  | vstr : String → Value
  | vint : Int → Value
  | vlist : Nat → Value
  | vdict : List (String × Value) → Value
  | vinst : Nat → Value
deriving Repr

/-- A fully resolved (reference-free) Python value: what a deep copy of a
value looks like, compared up to Python `==`.  Used for the snapshot that
`to_dict` returns (the source deep-copies `_data`, so the result shares no
mutable structure with the record). -/
inductive PureVal where
  | pnone : PureVal
  | pstr : String → PureVal
  | pint : Int → PureVal
  | plist : List PureVal → PureVal
  | pdict : List (String × PureVal) → PureVal
  | pinst : Nat → PureVal
deriving Repr

/-- `self._data`: a Python dict from field names to values, in insertion
order. -/
abbrev Dict := List (String × Value)

/-- Python `d[k]` lookup (first binding; Python dicts have unique keys). -/
def dictGet (d : Dict) (k : String) : Option Value :=
  match d with
  | [] => none
  | (k', v) :: rest => if k' = k then some v else dictGet rest k

/-- Python `k in d`. -/
def dictContains (d : Dict) (k : String) : Bool :=
  (dictGet d k).isSome

/-- Python `d[k] = v`: overwrite in place if the key exists, else append. -/
def dictSet (d : Dict) (k : String) (v : Value) : Dict :=
  match d with
  | [] => [(k, v)]
  | (k', v') :: rest =>
    if k' = k then (k, v) :: rest else (k', v') :: dictSet rest k v

/-- Python `del d[k]`: `none` models the `KeyError` on a missing key. -/
def dictDel (d : Dict) (k : String) : Option Dict :=
  match d with
  | [] => none
  | (k', v') :: rest =>
    if k' = k then some rest
    else (dictDel rest k).map (fun r => (k', v') :: r)

/-- Python `d.pop(k, None)`: the stored value (or `none` when absent)
together with the dict with the key removed. -/
def dictPop (d : Dict) (k : String) : Option Value × Dict :=
  match dictDel d k with
  | some d' => (dictGet d k, d')
  | none => (none, d)

/-- The key sequence of a dict. -/
def dictKeys (d : Dict) : List String := d.map Prod.fst

/-- Well-formedness of the backing dict: Python dict keys are unique. -/
abbrev DictWF (d : Dict) : Prop := (dictKeys d).Nodup

/-- The store of Python list objects: address `a` is the `a`-th allocated
list.  Allocation appends; mutation replaces one address. -/
structure Heap where
  lists : List (List Value)
deriving Repr

/-- Dereference a list address. -/
def Heap.get (h : Heap) (a : Nat) : Option (List Value) :=
  h.lists[a]?

/-- Allocate a fresh list object, returning its address. -/
def Heap.alloc (h : Heap) (xs : List Value) : Nat × Heap :=
  (h.lists.length, ⟨h.lists ++ [xs]⟩)

/-- Replace the contents of the list object at address `a` (models any
in-place list mutation: `append`, `remove`, index assignment, ...). -/
def Heap.mutate (h : Heap) (a : Nat) (xs : List Value) : Heap :=
  ⟨h.lists.set a xs⟩

/-- `h'` extends `h`: everything allocated in `h` is unchanged in `h'`.
All the operations used by `Instance.copy` only allocate. -/
def Heap.Ext (h h' : Heap) : Prop :=
  ∃ tail, h'.lists = h.lists ++ tail

/-- Python truthiness for the `x or y` defaulting idiom in `__init__`
(`None`, `0`, `""`, `[]`, `{}` are falsy; list truthiness reads the heap;
a dangling reference never arises in Python and is treated as falsy). -/
def truthy (h : Heap) : Value → Bool
  | Value.vnone => false
  | Value.vstr s => !(s == "")
  | Value.vint n => !(n == 0)
  | Value.vlist a => !((h.get a).getD []).isEmpty
  | Value.vdict d => !d.isEmpty
  | Value.vinst _ => true

/-!
## MD5

`Instance._generate_id` computes `hashlib.md5(content.encode()).hexdigest()`.
We embed the MD5 algorithm (RFC 1321) over byte lists, with 32-bit words as
naturals reduced mod `2 ^ 32`, together with UTF-8 encoding (`str.encode()`).
-/

namespace MD5

/-- `count` little-endian bytes of `n`. -/
def toLEBytes (n : Nat) : Nat → List Nat
  | 0 => []
  | c + 1 => n % 256 :: toLEBytes (n / 256) c

/-- Read a little-endian byte list as a number. -/
def fromLEBytes (bs : List Nat) : Nat :=
  bs.foldr (fun b acc => b + 256 * acc) 0

/-- The 64 sine-derived round constants of MD5. -/
def kTable : List Nat :=
  [0xd76aa478, 0xe8c7b756, 0x242070db, 0xc1bdceee,
   0xf57c0faf, 0x4787c62a, 0xa8304613, 0xfd469501,
   0x698098d8, 0x8b44f7af, 0xffff5bb1, 0x895cd7be,
   0x6b901122, 0xfd987193, 0xa679438e, 0x49b40821,
   0xf61e2562, 0xc040b340, 0x265e5a51, 0xe9b6c7aa,
   0xd62f105d, 0x02441453, 0xd8a1e681, 0xe7d3fbc8,
   0x21e1cde6, 0xc33707d6, 0xf4d50d87, 0x455a14ed,
   0xa9e3e905, 0xfcefa3f8, 0x676f02d9, 0x8d2a4c8a,
   0xfffa3942, 0x8771f681, 0x6d9d6122, 0xfde5380c,
   0xa4beea44, 0x4bdecfa9, 0xf6bb4b60, 0xbebfbc70,
   0x289b7ec6, 0xeaa127fa, 0xd4ef3085, 0x04881d05,
   0xd9d4d039, 0xe6db99e5, 0x1fa27cf8, 0xc4ac5665,
   0xf4292244, 0x432aff97, 0xab9423a7, 0xfc93a039,
   0x655b59c3, 0x8f0ccc92, 0xffeff47d, 0x85845dd1,
   0x6fa87e4f, 0xfe2ce6e0, 0xa3014314, 0x4e0811a1,
   0xf7537e82, 0xbd3af235, 0x2ad7d2bb, 0xeb86d391]

/-- The per-round left-rotation amounts of MD5. -/
def sTable : List Nat :=
  [7, 12, 17, 22, 7, 12, 17, 22, 7, 12, 17, 22, 7, 12, 17, 22,
   5, 9, 14, 20, 5, 9, 14, 20, 5, 9, 14, 20, 5, 9, 14, 20,
   4, 11, 16, 23, 4, 11, 16, 23, 4, 11, 16, 23, 4, 11, 16, 23,
   6, 10, 15, 21, 6, 10, 15, 21, 6, 10, 15, 21, 6, 10, 15, 21]

/-- Bitwise complement on 32-bit words. -/
def wnot (x : Nat) : Nat := 4294967295 - x % 4294967296

/-- Left rotation of a 32-bit word by `s` places. -/
def rotl (x s : Nat) : Nat :=
  (((x % 4294967296) <<< s) % 4294967296) ||| ((x % 4294967296) >>> (32 - s))

/-- One of the 64 MD5 rounds: `M` is the 16-word message block. -/
def md5Step (M : List Nat) (st : Nat × Nat × Nat × Nat) (i : Nat) :
    Nat × Nat × Nat × Nat :=
  let (a, b, c, d) := st
  let f :=
    if i < 16 then (b &&& c) ||| (wnot b &&& d)
    else if i < 32 then (d &&& b) ||| (wnot d &&& c)
    else if i < 48 then b ^^^ c ^^^ d
    else c ^^^ (b ||| wnot d)
  let g :=
    if i < 16 then i
    else if i < 32 then (5 * i + 1) % 16
    else if i < 48 then (3 * i + 5) % 16
    else (7 * i) % 16
  let tmp := (f + a + kTable.getD i 0 + M.getD g 0) % 4294967296
  (d, (b + rotl tmp (sTable.getD i 0)) % 4294967296, b, c)

/-- Process one 64-byte chunk. -/
def md5Chunk (st : Nat × Nat × Nat × Nat) (chunk : List Nat) :
    Nat × Nat × Nat × Nat :=
  let M := (List.range 16).map (fun j => fromLEBytes ((chunk.drop (4 * j)).take 4))
  let r := (List.range 64).foldl (md5Step M) st
  ((st.1 + r.1) % 4294967296, (st.2.1 + r.2.1) % 4294967296,
   (st.2.2.1 + r.2.2.1) % 4294967296, (st.2.2.2 + r.2.2.2) % 4294967296)

/-- MD5 padding: `0x80`, zeros to 56 mod 64, then the bit length as eight
little-endian bytes. -/
def pad (msg : List Nat) : List Nat :=
  msg ++ 128 :: List.replicate ((119 - msg.length % 64) % 64) 0
      ++ toLEBytes ((8 * msg.length) % 18446744073709551616) 8

/-- Split into 64-byte chunks (structural recursion on a fuel bound so the
kernel can evaluate it; each step consumes at least one byte, so a fuel of
`l.length` always suffices). -/
def chunks64Aux : Nat → List Nat → List (List Nat)
  | 0, _ => []
  | _, [] => []
  | fuel + 1, b :: rest =>
    (b :: rest).take 64 :: chunks64Aux fuel ((b :: rest).drop 64)

/-- Split into 64-byte chunks. -/
def chunks64 (l : List Nat) : List (List Nat) := chunks64Aux l.length l

/-- The 16-byte MD5 digest of a byte list. -/
def md5Bytes (msg : List Nat) : List Nat :=
  let r := (chunks64 (pad msg)).foldl md5Chunk
    (0x67452301, 0xefcdab89, 0x98badcfe, 0x10325476)
  toLEBytes r.1 4 ++ toLEBytes r.2.1 4 ++ toLEBytes r.2.2.1 4 ++ toLEBytes r.2.2.2 4

/-- Lower-case hex digit. -/
def hexDigitChar (n : Nat) : Char :=
  if n < 10 then Char.ofNat (48 + n) else Char.ofNat (87 + n)

/-- Two hex digits of one byte. -/
def byteHex (b : Nat) : List Char := [hexDigitChar (b / 16 % 16), hexDigitChar (b % 16)]

/-- Hex string of a byte list (Python `hexdigest`). -/
def hexOfBytes (bs : List Nat) : String := String.mk ((bs.map byteHex).flatten)

/-- `hashlib.md5(bytes).hexdigest()`. -/
def md5Hex (msg : List Nat) : String := hexOfBytes (md5Bytes msg)

end MD5

/-- UTF-8 encoding of one character (Python `str.encode()` is UTF-8). -/
def utf8EncodeChar (c : Char) : List Nat :=
  let n := c.toNat
  if n < 128 then [n]
  else if n < 2048 then [192 + n / 64, 128 + n % 64]
  else if n < 65536 then [224 + n / 4096, 128 + n / 64 % 64, 128 + n % 64]
  else [240 + n / 262144, 128 + n / 4096 % 64, 128 + n / 64 % 64, 128 + n % 64]

/-- UTF-8 encoding of a string, as a byte list. -/
def utf8Encode (s : String) : List Nat := (s.data.map utf8EncodeChar).flatten

/-- Python `f"{v}"` rendering, for the value shapes `_generate_id` meets:
`None`, strings and integers (the only query / jailbreak_prompt values the
class is used with).  The rendering of containers and instances is not
modelled (placeholder text); every claim that involves the digest of such a
value only compares digests computed by this same function on both sides, so
nothing below depends on the placeholder. -/
def pyStr : Value → String
  | Value.vnone => "None"
  | Value.vstr s => s
  | Value.vint n => toString n
  | Value.vlist _ => "<unmodelled list repr>"
  | Value.vdict _ => "<unmodelled dict repr>"
  | Value.vinst _ => "<unmodelled instance repr>"

/-!
## The `Instance` class
-/

/-- An `Instance` object after `__init__` has installed `self._data`: all of
its named fields (fixed and extra) live in the one flat dict `_data`. -/
structure Instance where
  data : Dict
deriving Repr

/-- `Instance.__getattr__` (the fallback Python invokes for names not found
by normal lookup; after construction `'_data' in self.__dict__` always
holds, so the embedded function is the `try` body): look the name up in
`_data`, `none` modelling the `AttributeError` on a missing key. -/
def Instance.getattr (i : Instance) (name : String) : Option Value :=
  dictGet i.data name

/-- `Instance.__setattr__` for field names: store into `_data` (the
`name == '_data'` branch in the source installs the backing dict itself and
is the constructor bootstrap, not a field write; theorems quantifying over
names carry `name ≠ "_data"` where that matters). -/
def Instance.setattr (i : Instance) (name : String) (v : Value) : Instance :=
  ⟨dictSet i.data name v⟩

/-- `Instance.__getitem__`: delegates to `__getattr__`. -/
def Instance.getitem (i : Instance) (key : String) : Option Value :=
  i.getattr key

/-- `Instance.__setitem__`: delegates to `__setattr__`. -/
def Instance.setitem (i : Instance) (key : String) (v : Value) : Instance :=
  i.setattr key v

/-- `Instance._generate_id`: the md5 hexdigest of the UTF-8 bytes of
`f"{self.query}|{self.jailbreak_prompt}"` (`none` when a field is missing,
where Python's attribute read would raise). -/
def Instance.generate_id (i : Instance) : Option String :=
  match i.getattr "query", i.getattr "jailbreak_prompt" with
  | some q, some p => some (MD5.md5Hex (utf8Encode (pyStr q ++ "|" ++ pyStr p)))
  | _, _ => none

/-- The `x or []` defaulting idiom of `__init__`: keep a truthy value,
otherwise allocate a fresh empty list. -/
def orEmptyList (v : Value) (h : Heap) : Value × Heap :=
  if truthy h v then (v, h)
  else
    let p := h.alloc []
    (Value.vlist p.1, p.2)

/-- The default `attack_attrs` dict of `__init__`. -/
def defaultAttackAttrs : Value :=
  Value.vdict [("Mutation", Value.vnone), ("query_class", Value.vnone)]

/-- `Instance.__init__`: assigns the fields through `__setattr__` in source
order (each assignment lands in `_data`, new keys appended in insertion
order), replacing each falsy list parameter by a fresh empty list and a
falsy `attack_attrs` by the two-key default; merges `kwargs` by
`dict.update`; finally computes and stores `id` from the current
`query`/`jailbreak_prompt`.  Python rejects a kwarg spelled like a declared
parameter (`TypeError` at the call site); theorems that need this carry the
disjointness as a hypothesis. -/
def initInstance (query jailbreak_prompt reference_responses target_responses
    eval_results parents children attack_attrs : Value)
    (kwargs : List (String × Value)) (h : Heap) : Instance × Heap :=
  let i1 := (Instance.mk []).setattr "query" query
  let i2 := i1.setattr "jailbreak_prompt" jailbreak_prompt
  let p1 := orEmptyList reference_responses h
  let i3 := i2.setattr "reference_responses" p1.1
  let p2 := orEmptyList target_responses p1.2
  let i4 := i3.setattr "target_responses" p2.1
  let p3 := orEmptyList eval_results p2.2
  let i5 := i4.setattr "eval_results" p3.1
  let p4 := orEmptyList parents p3.2
  let i6 := i5.setattr "parents" p4.1
  let p5 := orEmptyList children p4.2
  let i7 := i6.setattr "children" p5.1
  let i8 := i7.setattr "index" Value.vnone
  let i9 := i8.setattr "attack_attrs"
    (if truthy p5.2 attack_attrs then attack_attrs else defaultAttackAttrs)
  let i10 : Instance := ⟨kwargs.foldl (fun d kv => dictSet d kv.1 kv.2) i9.data⟩
  (i10.setattr "id" (Value.vstr ((i10.generate_id).getD "")), p5.2)

/-- `Instance.delete(*keys)`: removes the named keys from `_data` one by
one, in argument order; on the first missing key Python raises `KeyError`,
leaving the record partially deleted — modelled by returning the offending
key together with the state reached at that point. -/
def Instance.delete (i : Instance) : List String → Option String × Instance
  | [] => (none, i)
  | k :: ks =>
    match dictDel i.data k with
    | some d => Instance.delete ⟨d⟩ ks
    | none => (some k, i)

/-- `num_query` property: `len(self.target_responses)` (modelled for the
list-valued field the class maintains; `none` when the field is missing or
not a list, where Python would raise). -/
def Instance.num_query (i : Instance) (h : Heap) : Option Nat :=
  match i.getattr "target_responses" with
  | some (Value.vlist a) => (h.get a).map List.length
  | _ => none

/-- Python `sum` over a list of integers (`none` on a non-numeric element,
where Python would raise `TypeError`). -/
def pySum : List Value → Option Int
  | [] => some 0
  | Value.vint n :: rest => (pySum rest).map (fun s => n + s)
  | _ => none

/-- `num_jailbreak` property: `sum(self.eval_results)`. -/
def Instance.num_jailbreak (i : Instance) (h : Heap) : Option Int :=
  match i.getattr "eval_results" with
  | some (Value.vlist a) => (h.get a).bind pySum
  | _ => none

/-- `num_reject` property: `len(self.eval_results) - sum(self.eval_results)`. -/
def Instance.num_reject (i : Instance) (h : Heap) : Option Int :=
  match i.getattr "eval_results" with
  | some (Value.vlist a) =>
    (h.get a).bind (fun es => (pySum es).map (fun s => (es.length : Int) - s))
  | _ => none

/-- The value snapshot `copy.deepcopy` produces, rendered reference-free
(the snapshot shares no mutable structure with the record, which is exactly
what a `PureVal` expresses; deep copies are compared by Python `==`, i.e.
structurally).  Fuel-bounded so the kernel can evaluate it; any fuel above
the value's nesting depth gives the same result.  An `Instance` reference
inside the snapshot is rendered by its tag (its freshly-cloned identity is
not modelled; no claim observes it). -/
def resolveList (f : Value → Option PureVal) : List Value → Option (List PureVal)
  | [] => some []
  | v :: vs => (f v).bind fun pv => (resolveList f vs).map fun pvs => pv :: pvs

def resolveEntries (f : Value → Option PureVal) :
    List (String × Value) → Option (List (String × PureVal))
  | [] => some []
  | kv :: rest =>
    (f kv.2).bind fun pv => (resolveEntries f rest).map fun ms => (kv.1, pv) :: ms

def resolveVal (h : Heap) : Nat → Value → Option PureVal
  | _, Value.vnone => some PureVal.pnone
  | _, Value.vstr s => some (PureVal.pstr s)
  | _, Value.vint n => some (PureVal.pint n)
  | 0, Value.vlist _ => none
  | fuel + 1, Value.vlist a =>
    (h.get a).bind fun xs =>
      (resolveList (resolveVal h fuel) xs).map PureVal.plist
  | 0, Value.vdict _ => none
  | fuel + 1, Value.vdict d =>
    (resolveEntries (resolveVal h fuel) d).map PureVal.pdict
  | _, Value.vinst t => some (PureVal.pinst t)

/-- Python `x is None`. -/
def Value.isNoneV : Value → Bool
  | Value.vnone => true
  | _ => false

/-- Restore a popped lineage field: `Instance.to_dict` re-inserts it only
when the popped value `is not None` (a stored `None` is silently dropped
from `_data`). -/
def restoreKey (d : Dict) (k : String) : Option Value → Dict
  | none => d
  | some v => if v.isNoneV then d else dictSet d k v

/-- `Instance.to_dict()`: pops `parents` and `children` out of the live
`_data`, deep-copies the rest into the returned snapshot, then restores the
two lineage fields (when they were present and not `None`).  When the deep
copy is not representable (fuel, or an unmodelled value) the snapshot is
`none` and — as in Python, where the exception would propagate before the
restore lines run — the record keeps the popped state. -/
def Instance.to_dict (i : Instance) (h : Heap) (fuel : Nat) :
    Option (List (String × PureVal)) × Instance :=
  let q1 := dictPop i.data "parents"
  let q2 := dictPop q1.2 "children"
  match resolveEntries (resolveVal h fuel) q2.2 with
  | none => (none, ⟨q2.2⟩)
  | some m => (some m, ⟨restoreKey (restoreKey q2.2 "parents" q1.1) "children" q2.1⟩)

/-- `list.copy()` / `[i for i in xs]` applied to a list-valued field of the
record: read the field, require it to be a list object, and allocate a fresh
list with the same elements (`none` when the field is missing or not a list,
where Python would raise). -/
def fieldListCopy (i : Instance) (name : String) (h : Heap) :
    Option (Value × Heap) :=
  match i.getattr name with
  | some (Value.vlist a) =>
    (h.get a).map (fun xs =>
      let p := h.alloc xs
      (Value.vlist p.1, p.2))
  | _ => none

/-- Deep copy of the values in a key-value list, threading the heap. -/
def deepcopyEntries (f : Value → Heap → Option (Value × Heap)) :
    List (String × Value) → Heap → Option (List (String × Value) × Heap)
  | [], h => some ([], h)
  | kv :: rest, h =>
    (f kv.2 h).bind fun p =>
      (deepcopyEntries f rest p.2).map fun q => ((kv.1, p.1) :: q.1, q.2)

/-- Deep copy of the elements of a list, threading the heap. -/
def deepcopyList (f : Value → Heap → Option (Value × Heap)) :
    List Value → Heap → Option (List Value × Heap)
  | [], h => some ([], h)
  | v :: vs, h =>
    (f v h).bind fun p =>
      (deepcopyList f vs p.2).map fun q => (p.1 :: q.1, q.2)

/-- `copy.deepcopy` on a value: atoms are returned as they are, a list is
deep-copied element-wise into a freshly allocated list object, a dict is
deep-copied entry-wise.  Fuel-bounded (any fuel above the value's nesting
depth gives the same result); `deepcopy` of an `Instance` reference — which
Python would clone — is not modelled (`none`; no claim reaches it), and
`deepcopy`'s memoisation of shared sub-objects is not modelled (it only
affects sharing inside the copy, which no claim observes). -/
def deepcopyVal : Nat → Value → Heap → Option (Value × Heap)
  | 0, _, _ => none
  | _ + 1, Value.vnone, h => some (Value.vnone, h)
  | _ + 1, Value.vstr s, h => some (Value.vstr s, h)
  | _ + 1, Value.vint n, h => some (Value.vint n, h)
  | fuel + 1, Value.vlist a, h =>
    (h.get a).bind fun xs =>
      (deepcopyList (deepcopyVal fuel) xs h).map fun p =>
        let q := p.2.alloc p.1
        (Value.vlist q.1, q.2)
  | fuel + 1, Value.vdict d, h =>
    (deepcopyEntries (deepcopyVal fuel) d h).map fun p => (Value.vdict p.1, p.2)
  | _ + 1, Value.vinst _, _ => none

/-- `Instance.copy()`: calls the constructor with the current
`query`/`jailbreak_prompt`, fresh shallow copies of the five sequence
fields (`.copy()` for the response/result lists, list comprehensions for
`parents`/`children` — new list objects, same element references), and a
deep copy of `attack_attrs`; then deep-copies every field of the original
that the constructor did not already set into the clone.  `none` models the
exceptions Python would raise (missing fixed field after a `delete`,
non-list sequence field) and the unmodelled `deepcopy` cases. -/
def Instance.copy (i : Instance) (h : Heap) (fuel : Nat) :
    Option (Instance × Heap) :=
  (i.getattr "query").bind fun q =>
  (i.getattr "jailbreak_prompt").bind fun p =>
  (fieldListCopy i "reference_responses" h).bind fun c1 =>
  (fieldListCopy i "target_responses" c1.2).bind fun c2 =>
  (fieldListCopy i "eval_results" c2.2).bind fun c3 =>
  (fieldListCopy i "parents" c3.2).bind fun c4 =>
  (fieldListCopy i "children" c4.2).bind fun c5 =>
  (i.getattr "attack_attrs").bind fun av =>
  (deepcopyVal fuel av c5.2).bind fun c6 =>
  let ni := initInstance q p c1.1 c2.1 c3.1 c4.1 c5.1 c6.1 [] c6.2
  let rest := i.data.filter (fun kv => !(dictContains ni.1.data kv.1))
  (deepcopyEntries (deepcopyVal fuel) rest ni.2).map fun c7 =>
    (⟨c7.1.foldl (fun d kv => dictSet d kv.1 kv.2) ni.1.data⟩, c7.2)

/-!
## Concrete records (the examples of the source's `__main__` block and of the
spec, used as witnesses)
-/

/-- `Instance(query='test', jailbreak_prompt='test_prompt')`, built in an
empty heap; the pair is (record, heap after construction). -/
def instance1 : Instance × Heap :=
  initInstance (Value.vstr "test") (Value.vstr "test_prompt") Value.vnone
    Value.vnone Value.vnone Value.vnone Value.vnone Value.vnone [] ⟨[]⟩

/-- A heap holding the two list arguments `['a', 'b']` and `[1, 0]`. -/
def exampleHeap : Heap :=
  ⟨[[Value.vstr "a", Value.vstr "b"], [Value.vint 1, Value.vint 0]]⟩

/-- `Instance(query='test', jailbreak_prompt='test_prompt',
target_responses=['a','b'], eval_results=[1,0])`. -/
def instance2 : Instance × Heap :=
  initInstance (Value.vstr "test") (Value.vstr "test_prompt") Value.vnone
    (Value.vlist 0) (Value.vlist 1) Value.vnone Value.vnone Value.vnone []
    exampleHeap

/-- A record whose five sequence fields are non-empty heap lists (its
`parents`/`children` hold references to two other records). -/
def instance4 : Instance × Heap :=
  initInstance (Value.vstr "q") (Value.vstr "j") (Value.vlist 0) (Value.vlist 1)
    (Value.vlist 2) (Value.vlist 3) (Value.vlist 4) Value.vnone []
    ⟨[[Value.vstr "x"], [Value.vstr "y"], [Value.vint 1], [Value.vinst 0],
      [Value.vinst 1]]⟩

/-!
## Heap lemmas
-/

theorem Heap.ext_refl (h : Heap) : Heap.Ext h h := ⟨[], by simp⟩

theorem Heap.ext_trans {h₁ h₂ h₃ : Heap} (e₁ : Heap.Ext h₁ h₂)
    (e₂ : Heap.Ext h₂ h₃) : Heap.Ext h₁ h₃ := by
  obtain ⟨t₁, ht₁⟩ := e₁
  obtain ⟨t₂, ht₂⟩ := e₂
  exact ⟨t₁ ++ t₂, by rw [ht₂, ht₁, List.append_assoc]⟩

theorem Heap.ext_alloc (h : Heap) (xs : List Value) : Heap.Ext h (h.alloc xs).2 :=
  ⟨[xs], rfl⟩

theorem Heap.alloc_fst (h : Heap) (xs : List Value) :
    (h.alloc xs).1 = h.lists.length := rfl

theorem Heap.get_alloc_self (h : Heap) (xs : List Value) :
    (h.alloc xs).2.get (h.alloc xs).1 = some xs := by
  simp [Heap.alloc, Heap.get]

theorem Heap.ext_length_le {h h' : Heap} (e : Heap.Ext h h') :
    h.lists.length ≤ h'.lists.length := by
  obtain ⟨t, ht⟩ := e
  simp [ht]

theorem Heap.get_ext {h h' : Heap} (e : Heap.Ext h h') {a : Nat}
    (ha : a < h.lists.length) : h'.get a = h.get a := by
  obtain ⟨t, ht⟩ := e
  simp [Heap.get, ht, List.getElem?_append_left ha]

theorem Heap.get_lt_length {h : Heap} {a : Nat} {xs : List Value}
    (hget : h.get a = some xs) : a < h.lists.length := by
  by_contra hlt
  simp [Heap.get, List.getElem?_eq_none (Nat.le_of_not_lt hlt)] at hget

theorem Heap.get_mutate_ne (h : Heap) {a b : Nat} (hab : a ≠ b) (xs : List Value) :
    (h.mutate a xs).get b = h.get b := by
  simp [Heap.mutate, Heap.get, List.getElem?_set_ne hab]

/-!
## Dictionary lemmas
-/

theorem dictGet_set_self (d : Dict) (k : String) (v : Value) :
    dictGet (dictSet d k v) k = some v := by
  induction d with
  | nil => simp [dictSet, dictGet]
  | cons kv rest ih =>
    obtain ⟨k', v'⟩ := kv
    by_cases hk : k' = k
    · simp [dictSet, dictGet, hk]
    · simp [dictSet, dictGet, hk, ih]

theorem dictGet_set_ne (d : Dict) {k k' : String} (hne : k' ≠ k) (v : Value) :
    dictGet (dictSet d k' v) k = dictGet d k := by
  induction d with
  | nil => simp [dictSet, dictGet, hne]
  | cons kv rest ih =>
    obtain ⟨k'', v''⟩ := kv
    by_cases hk : k'' = k'
    · subst hk
      simp [dictSet, dictGet, hne, Ne.symm hne]
    · by_cases hk2 : k'' = k
      · simp [dictSet, dictGet, hk, hk2, Ne.symm hne]
      · simp [dictSet, dictGet, hk, hk2, ih]

theorem dictGet_eq_none_iff (d : Dict) (k : String) :
    dictGet d k = none ↔ k ∉ dictKeys d := by
  induction d with
  | nil => simp [dictGet, dictKeys]
  | cons kv rest ih =>
    obtain ⟨k', v'⟩ := kv
    by_cases hk : k' = k
    · simp [dictGet, dictKeys, hk]
    · simp [dictGet, dictKeys, hk, ih, Ne.symm hk]

theorem dictContains_iff (d : Dict) (k : String) :
    dictContains d k = true ↔ k ∈ dictKeys d := by
  rw [dictContains, Option.isSome_iff_ne_none, ne_eq, dictGet_eq_none_iff]
  simp

theorem dictSet_eq_append {d : Dict} {k : String} (v : Value)
    (habs : dictGet d k = none) : dictSet d k v = d ++ [(k, v)] := by
  induction d with
  | nil => simp [dictSet]
  | cons kv rest ih =>
    obtain ⟨k', v'⟩ := kv
    by_cases hk : k' = k
    · simp [dictGet, hk] at habs
    · simp only [dictGet, if_neg hk] at habs
      simp [dictSet, hk, ih habs]

theorem dictKeys_set (d : Dict) (k : String) (v : Value) :
    dictKeys (dictSet d k v) = if dictContains d k then dictKeys d else dictKeys d ++ [k] := by
  induction d with
  | nil => simp [dictSet, dictKeys, dictContains, dictGet]
  | cons kv rest ih =>
    obtain ⟨k', v'⟩ := kv
    by_cases hk : k' = k
    · simp [dictSet, dictKeys, dictContains, dictGet, hk]
    · simp only [dictSet, if_neg hk, dictKeys, List.map_cons,
        dictContains, dictGet] at ih ⊢
      rw [ih]
      split <;> simp

theorem dictGet_foldl_set (es : List (String × Value)) (d : Dict) {k : String}
    (hks : ∀ kv ∈ es, kv.1 ≠ k) :
    dictGet (es.foldl (fun d' kv => dictSet d' kv.1 kv.2) d) k = dictGet d k := by
  induction es generalizing d with
  | nil => rfl
  | cons kv rest ih =>
    have h1 : kv.1 ≠ k := hks kv (by simp)
    rw [List.foldl_cons, ih _ (fun kv' hm => hks kv' (by simp [hm]))]
    exact dictGet_set_ne d h1 kv.2

theorem dictDel_eq_none_iff (d : Dict) (k : String) :
    dictDel d k = none ↔ dictGet d k = none := by
  induction d with
  | nil => simp [dictDel, dictGet]
  | cons kv rest ih =>
    obtain ⟨k', v'⟩ := kv
    by_cases hk : k' = k
    · simp [dictDel, dictGet, hk]
    · simp [dictDel, dictGet, hk, ih]

theorem dictDel_sublist {d d' : Dict} {k : String}
    (hdel : dictDel d k = some d') : d'.Sublist d := by
  induction d generalizing d' with
  | nil => simp [dictDel] at hdel
  | cons kv rest ih =>
    obtain ⟨k', v'⟩ := kv
    by_cases hk : k' = k
    · simp only [dictDel, if_pos hk, Option.some_inj] at hdel
      subst hdel
      exact List.sublist_cons_self _ _
    · simp only [dictDel, if_neg hk, Option.map_eq_some'] at hdel
      obtain ⟨r, hr, hd'⟩ := hdel
      subst hd'
      exact (ih hr).cons₂ _

theorem dictGet_del_ne {d d' : Dict} {k : String}
    (hdel : dictDel d k = some d') {k' : String} (hne : k' ≠ k) :
    dictGet d' k' = dictGet d k' := by
  induction d generalizing d' with
  | nil => simp [dictDel] at hdel
  | cons kv rest ih =>
    obtain ⟨k'', v''⟩ := kv
    by_cases hk : k'' = k
    · simp only [dictDel, if_pos hk, Option.some_inj] at hdel
      subst hdel
      subst hk
      have hkk : ¬ k'' = k' := fun hcon => hne hcon.symm
      simp [dictGet, hkk]
    · simp only [dictDel, if_neg hk, Option.map_eq_some'] at hdel
      obtain ⟨r, hr, hd'⟩ := hdel
      subst hd'
      by_cases hk2 : k'' = k'
      · simp [dictGet, hk2]
      · simp [dictGet, hk2, ih hr]

theorem dictKeys_sublist_of_sublist {d d' : Dict} (hs : d'.Sublist d) :
    (dictKeys d').Sublist (dictKeys d) := hs.map Prod.fst

theorem dictGet_none_of_sublist {d d' : Dict} (hs : d'.Sublist d) {k : String}
    (habs : dictGet d k = none) : dictGet d' k = none := by
  rw [dictGet_eq_none_iff] at habs ⊢
  exact fun hmem => habs ((dictKeys_sublist_of_sublist hs).mem hmem)

theorem dictWF_of_sublist {d d' : Dict} (hs : d'.Sublist d) (hwf : DictWF d) :
    DictWF d' := hwf.sublist (dictKeys_sublist_of_sublist hs)

theorem dictDel_keys_of_wf {d d' : Dict} {k : String} (hwf : DictWF d)
    (hdel : dictDel d k = some d') : dictGet d' k = none := by
  induction d generalizing d' with
  | nil => simp [dictDel] at hdel
  | cons kv rest ih =>
    obtain ⟨k', v'⟩ := kv
    by_cases hk : k' = k
    · simp only [dictDel, if_pos hk, Option.some_inj] at hdel
      subst hdel
      subst hk
      rw [dictGet_eq_none_iff]
      exact (List.nodup_cons.mp hwf).1
    · simp only [dictDel, if_neg hk, Option.map_eq_some'] at hdel
      obtain ⟨r, hr, hd'⟩ := hdel
      subst hd'
      simp only [dictGet, if_neg hk]
      exact ih (List.nodup_cons.mp hwf).2 hr

theorem dictPop_fst (d : Dict) (k : String) : (dictPop d k).1 = dictGet d k := by
  unfold dictPop
  cases hdel : dictDel d k with
  | none => simp [(dictDel_eq_none_iff d k).mp hdel]
  | some d' => simp

theorem dictPop_snd_of_wf {d : Dict} (hwf : DictWF d) (k : String) :
    (dictPop d k).2 = d.filter (fun kv => !(kv.1 == k)) := by
  induction d with
  | nil => simp [dictPop, dictDel]
  | cons kv rest ih =>
    obtain ⟨k', v'⟩ := kv
    have hwf' : DictWF rest := (List.nodup_cons.mp hwf).2
    by_cases hk : k' = k
    · subst hk
      have habs : dictGet rest k' = none := by
        rw [dictGet_eq_none_iff]
        exact (List.nodup_cons.mp hwf).1
      have hfil : rest.filter (fun kv => !(kv.1 == k')) = rest := by
        rw [List.filter_eq_self]
        intro a ha
        have : a.1 ≠ k' := by
          intro he
          rw [dictGet_eq_none_iff] at habs
          exact habs (he ▸ List.mem_map_of_mem Prod.fst ha)
        simp [this]
      simp [dictPop, dictDel, hfil]
    · have hne : (k', v').1 ≠ k := hk
      simp only [dictPop, dictDel, if_neg hk] at *
      cases hdel : dictDel rest k with
      | none =>
        have habs := (dictDel_eq_none_iff rest k).mp hdel
        have hfil : rest.filter (fun kv => !(kv.1 == k)) = rest := by
          rw [List.filter_eq_self]
          intro a ha
          rw [dictGet_eq_none_iff] at habs
          have : a.1 ≠ k := fun he => habs (he ▸ List.mem_map_of_mem Prod.fst ha)
          simp [this]
        simp [hdel, List.filter_cons, hk, hfil]
      | some r =>
        have := ih hwf'
        simp only [dictPop, hdel] at this
        simp [hdel, List.filter_cons, hk, dictGet, this]

theorem dictWF_set {d : Dict} (hwf : DictWF d) (k : String) (v : Value) :
    DictWF (dictSet d k v) := by
  unfold DictWF
  rw [dictKeys_set]
  by_cases hc : dictContains d k = true
  · simpa [hc] using hwf
  · have hk : k ∉ dictKeys d := fun hm => hc ((dictContains_iff d k).mpr hm)
    have hdisj : (dictKeys d).Disjoint [k] := by
      intro a ha hb
      simp only [List.mem_singleton] at hb
      exact hk (hb ▸ ha)
    have : (dictKeys d ++ [k]).Nodup :=
      List.nodup_append.mpr ⟨hwf, List.nodup_singleton k, hdisj⟩
    simpa [hc] using this

/-!
## Instance-level access lemmas
-/

theorem getattr_setattr_self (i : Instance) (k : String) (v : Value) :
    (i.setattr k v).getattr k = some v :=
  dictGet_set_self i.data k v

theorem getattr_setattr_ne (i : Instance) {k k' : String} (hne : k' ≠ k) (v : Value) :
    (i.setattr k' v).getattr k = i.getattr k :=
  dictGet_set_ne i.data hne v

/-!
## `delete` lemmas
-/

theorem delete_append (i : Instance) (ks₁ ks₂ : List String) :
    Instance.delete i (ks₁ ++ ks₂) =
      (match Instance.delete i ks₁ with
       | (none, i₁) => Instance.delete i₁ ks₂
       | (some e, i₁) => (some e, i₁)) := by
  induction ks₁ generalizing i with
  | nil => simp [Instance.delete]
  | cons k rest ih =>
    simp only [List.cons_append, Instance.delete]
    cases hdel : dictDel i.data k with
    | none => simp
    | some d => simpa using ih ⟨d⟩

theorem delete_sublist (i : Instance) (ks : List String) :
    (Instance.delete i ks).2.data.Sublist i.data := by
  induction ks generalizing i with
  | nil => simp [Instance.delete]
  | cons k rest ih =>
    simp only [Instance.delete]
    cases hdel : dictDel i.data k with
    | none => simp
    | some d => exact (ih ⟨d⟩).trans (dictDel_sublist hdel)

theorem delete_wf {i : Instance} (hwf : DictWF i.data) (ks : List String) :
    DictWF (Instance.delete i ks).2.data :=
  dictWF_of_sublist (delete_sublist i ks) hwf

theorem delete_success_removed {i : Instance} {ks : List String}
    (hwf : DictWF i.data) {i₁ : Instance}
    (hdel : Instance.delete i ks = (none, i₁)) :
    ∀ k ∈ ks, dictGet i₁.data k = none := by
  induction ks generalizing i with
  | nil => simp
  | cons k rest ih =>
    cases hd : dictDel i.data k with
    | none => simp [Instance.delete, hd] at hdel
    | some d =>
      simp only [Instance.delete, hd] at hdel
      intro k' hk'
      rcases List.mem_cons.mp hk' with hk' | hk'
      · subst hk'
        have h1 : dictGet d k' = none := dictDel_keys_of_wf hwf hd
        have h2 : (Instance.delete ⟨d⟩ rest).2.data.Sublist d := delete_sublist ⟨d⟩ rest
        have h3 : (Instance.delete ⟨d⟩ rest).2 = i₁ := by rw [hdel]
        rw [← h3]
        exact dictGet_none_of_sublist h2 h1
      · exact ih (dictWF_of_sublist (dictDel_sublist hd) hwf) hdel k' hk'

/-!
## Deep-copy and snapshot lemmas
-/

theorem resolveEntries_keys {f : Value → Option PureVal} :
    ∀ {es : List (String × Value)} {m : List (String × PureVal)},
      resolveEntries f es = some m → m.map Prod.fst = es.map Prod.fst := by
  intro es
  induction es with
  | nil =>
    intro m hm
    simp only [resolveEntries, Option.some_inj] at hm
    simp [← hm]
  | cons kv rest ih =>
    intro m hm
    simp only [resolveEntries] at hm
    cases hv : f kv.2 with
    | none => simp [hv] at hm
    | some pv =>
      rw [hv] at hm
      cases hrest : resolveEntries f rest with
      | none => simp [hrest] at hm
      | some ms =>
        simp only [hrest, Option.some_bind, Option.map_some', Option.some_inj] at hm
        subst hm
        simp [ih hrest]

theorem deepcopyEntries_keys {f : Value → Heap → Option (Value × Heap)} :
    ∀ {es : List (String × Value)} {h : Heap} {p},
      deepcopyEntries f es h = some p → p.1.map Prod.fst = es.map Prod.fst := by
  intro es
  induction es with
  | nil =>
    intro h p hp
    simp only [deepcopyEntries, Option.some_inj] at hp
    simp [← hp]
  | cons kv rest ih =>
    intro h p hp
    simp only [deepcopyEntries] at hp
    cases hv : f kv.2 h with
    | none => simp [hv] at hp
    | some q =>
      rw [hv] at hp
      cases hrest : deepcopyEntries f rest q.2 with
      | none => simp [hrest] at hp
      | some r =>
        simp only [hrest, Option.some_bind, Option.map_some', Option.some_inj] at hp
        subst hp
        simp [ih hrest]

theorem deepcopyList_ext {f : Value → Heap → Option (Value × Heap)}
    (hf : ∀ v h p, f v h = some p → Heap.Ext h p.2) :
    ∀ {xs : List Value} {h : Heap} {p},
      deepcopyList f xs h = some p → Heap.Ext h p.2 := by
  intro xs
  induction xs with
  | nil =>
    intro h p hp
    simp only [deepcopyList, Option.some_inj] at hp
    exact hp ▸ Heap.ext_refl h
  | cons v vs ih =>
    intro h p hp
    simp only [deepcopyList] at hp
    cases hv : f v h with
    | none => simp [hv] at hp
    | some q =>
      rw [hv] at hp
      cases hrest : deepcopyList f vs q.2 with
      | none => simp [hrest] at hp
      | some r =>
        simp only [hrest, Option.some_bind, Option.map_some', Option.some_inj] at hp
        have : p.2 = r.2 := by rw [← hp]
        exact this ▸ Heap.ext_trans (hf v h q hv) (ih hrest)

theorem deepcopyEntries_ext {f : Value → Heap → Option (Value × Heap)}
    (hf : ∀ v h p, f v h = some p → Heap.Ext h p.2) :
    ∀ {es : List (String × Value)} {h : Heap} {p},
      deepcopyEntries f es h = some p → Heap.Ext h p.2 := by
  intro es
  induction es with
  | nil =>
    intro h p hp
    simp only [deepcopyEntries, Option.some_inj] at hp
    exact hp ▸ Heap.ext_refl h
  | cons kv rest ih =>
    intro h p hp
    simp only [deepcopyEntries] at hp
    cases hv : f kv.2 h with
    | none => simp [hv] at hp
    | some q =>
      rw [hv] at hp
      cases hrest : deepcopyEntries f rest q.2 with
      | none => simp [hrest] at hp
      | some r =>
        simp only [hrest, Option.some_bind, Option.map_some', Option.some_inj] at hp
        have : p.2 = r.2 := by rw [← hp]
        exact this ▸ Heap.ext_trans (hf kv.2 h q hv) (ih hrest)

theorem deepcopyVal_ext :
    ∀ {fuel : Nat} {v : Value} {h : Heap} {p},
      deepcopyVal fuel v h = some p → Heap.Ext h p.2 := by
  intro fuel
  induction fuel with
  | zero => intro v h p hp; simp [deepcopyVal] at hp
  | succ fuel ih =>
    intro v h p hp
    cases v with
    | vnone => simp only [deepcopyVal, Option.some_inj] at hp; exact hp ▸ Heap.ext_refl h
    | vstr s => simp only [deepcopyVal, Option.some_inj] at hp; exact hp ▸ Heap.ext_refl h
    | vint n => simp only [deepcopyVal, Option.some_inj] at hp; exact hp ▸ Heap.ext_refl h
    | vinst t => simp [deepcopyVal] at hp
    | vlist a =>
      simp only [deepcopyVal] at hp
      cases hg : h.get a with
      | none => simp [hg] at hp
      | some xs =>
        rw [hg] at hp
        cases hl : deepcopyList (deepcopyVal fuel) xs h with
        | none => simp [hl] at hp
        | some q =>
          simp only [hl, Option.some_bind, Option.map_some', Option.some_inj] at hp
          have he1 : Heap.Ext h q.2 := deepcopyList_ext (fun v h p hp => ih hp) hl
          have he2 : Heap.Ext q.2 (q.2.alloc q.1).2 := Heap.ext_alloc q.2 q.1
          have : p.2 = (q.2.alloc q.1).2 := by rw [← hp]
          exact this ▸ Heap.ext_trans he1 he2
    | vdict d =>
      simp only [deepcopyVal] at hp
      cases hd : deepcopyEntries (deepcopyVal fuel) d h with
      | none => simp [hd] at hp
      | some q =>
        simp only [hd, Option.map_some', Option.some_inj] at hp
        have : p.2 = q.2 := by rw [← hp]
        exact this ▸ deepcopyEntries_ext (fun v h p hp => ih hp) hd

/-!
## Constructor lemmas
-/

theorem orEmptyList_ext (v : Value) (h : Heap) : Heap.Ext h (orEmptyList v h).2 := by
  unfold orEmptyList
  split
  · exact Heap.ext_refl h
  · exact Heap.ext_alloc h []

theorem orEmptyList_vlist {h : Heap} {a : Nat} {xs : List Value}
    (hget : h.get a = some xs) :
    ∃ b, (orEmptyList (Value.vlist a) h).1 = Value.vlist b ∧
      (orEmptyList (Value.vlist a) h).2.get b = some xs ∧
      a ≤ b ∧ b < (orEmptyList (Value.vlist a) h).2.lists.length := by
  unfold orEmptyList
  by_cases hxs : xs.isEmpty
  · have hxse : xs = [] := by cases xs <;> simp_all [List.isEmpty]
    have htr : truthy h (Value.vlist a) = false := by
      simp [truthy, hget, hxse]
    refine ⟨h.lists.length, ?_⟩
    rw [htr]
    subst hxse
    refine ⟨rfl, Heap.get_alloc_self h [], Nat.le_of_lt (Heap.get_lt_length hget), ?_⟩
    simp [Heap.alloc]
  · have htr : truthy h (Value.vlist a) = true := by
      simp [truthy, hget]
      cases xs <;> simp_all [List.isEmpty]
    refine ⟨a, ?_⟩
    rw [htr]
    exact ⟨rfl, hget, Nat.le_refl a, Heap.get_lt_length hget⟩

theorem alloc_snd_length (h : Heap) (xs : List Value) :
    (h.alloc xs).2.lists.length = h.lists.length + 1 := by
  simp [Heap.alloc]

theorem initInstance_getattr_query (q p rr tr er pa ch aa : Value) (h : Heap) :
    (initInstance q p rr tr er pa ch aa [] h).1.getattr "query" = some q := rfl

theorem initInstance_getattr_jp (q p rr tr er pa ch aa : Value) (h : Heap) :
    (initInstance q p rr tr er pa ch aa [] h).1.getattr "jailbreak_prompt" = some p := rfl

theorem initInstance_getattr_index (q p rr tr er pa ch aa : Value) (h : Heap) :
    (initInstance q p rr tr er pa ch aa [] h).1.getattr "index" = some Value.vnone := rfl

theorem initInstance_getattr_id_nil (q p rr tr er pa ch aa : Value) (h : Heap) :
    (initInstance q p rr tr er pa ch aa [] h).1.getattr "id"
      = some (Value.vstr (MD5.md5Hex (utf8Encode (pyStr q ++ "|" ++ pyStr p)))) := rfl

theorem initInstance_getattr_rr (q p rr tr er pa ch aa : Value) (h : Heap) :
    (initInstance q p rr tr er pa ch aa [] h).1.getattr "reference_responses"
      = some (orEmptyList rr h).1 := rfl

theorem initInstance_getattr_tr (q p rr tr er pa ch aa : Value) (h : Heap) :
    (initInstance q p rr tr er pa ch aa [] h).1.getattr "target_responses"
      = some (orEmptyList tr (orEmptyList rr h).2).1 := rfl

theorem initInstance_getattr_er (q p rr tr er pa ch aa : Value) (h : Heap) :
    (initInstance q p rr tr er pa ch aa [] h).1.getattr "eval_results"
      = some (orEmptyList er (orEmptyList tr (orEmptyList rr h).2).2).1 := rfl

theorem initInstance_getattr_pa (q p rr tr er pa ch aa : Value) (h : Heap) :
    (initInstance q p rr tr er pa ch aa [] h).1.getattr "parents"
      = some (orEmptyList pa (orEmptyList er (orEmptyList tr
          (orEmptyList rr h).2).2).2).1 := rfl

theorem initInstance_getattr_ch (q p rr tr er pa ch aa : Value) (h : Heap) :
    (initInstance q p rr tr er pa ch aa [] h).1.getattr "children"
      = some (orEmptyList ch (orEmptyList pa (orEmptyList er (orEmptyList tr
          (orEmptyList rr h).2).2).2).2).1 := rfl

theorem initInstance_snd (q p rr tr er pa ch aa : Value)
    (kwargs : List (String × Value)) (h : Heap) :
    (initInstance q p rr tr er pa ch aa kwargs h).2
      = (orEmptyList ch (orEmptyList pa (orEmptyList er (orEmptyList tr
          (orEmptyList rr h).2).2).2).2).2 := rfl

theorem initInstance_ext (q p rr tr er pa ch aa : Value)
    (kwargs : List (String × Value)) (h : Heap) :
    Heap.Ext h (initInstance q p rr tr er pa ch aa kwargs h).2 := by
  rw [initInstance_snd]
  exact Heap.ext_trans (orEmptyList_ext rr h)
    (Heap.ext_trans (orEmptyList_ext tr _)
      (Heap.ext_trans (orEmptyList_ext er _)
        (Heap.ext_trans (orEmptyList_ext pa _) (orEmptyList_ext ch _))))

theorem fieldListCopy_spec {i : Instance} {name : String} {h : Heap}
    {pr : Value × Heap} (hc : fieldListCopy i name h = some pr) :
    ∃ a xs, i.getattr name = some (Value.vlist a) ∧ h.get a = some xs ∧
      pr = (Value.vlist h.lists.length, ⟨h.lists ++ [xs]⟩) := by
  unfold fieldListCopy at hc
  cases hv : i.getattr name with
  | none => rw [hv] at hc; simp at hc
  | some v =>
    rw [hv] at hc
    cases v with
    | vlist a =>
      cases hg : h.get a with
      | none => simp [hg] at hc
      | some xs =>
        simp only [hg, Option.map_some', Option.some_inj, Heap.alloc] at hc
        exact ⟨a, xs, rfl, hg, hc.symm⟩
    | vnone => simp at hc
    | vstr s => simp at hc
    | vint n => simp at hc
    | vdict d => simp at hc
    | vinst t => simp at hc


theorem dictContains_of_getattr {i : Instance} {k : String} {v : Value}
    (hg : i.getattr k = some v) : dictContains i.data k = true := by
  unfold dictContains
  rw [show dictGet i.data k = i.getattr k from rfl, hg]
  rfl

theorem orEmptyList_chain_spec {hK hfin : Heap} {bload : Nat} {xs : List Value}
    (hget : hK.get bload = some xs)
    (hext : Heap.Ext (orEmptyList (Value.vlist bload) hK).2 hfin) :
    ∃ b, (orEmptyList (Value.vlist bload) hK).1 = Value.vlist b ∧ bload ≤ b ∧
      hfin.get b = some xs := by
  obtain ⟨b, h1, h2, h3, h4⟩ := orEmptyList_vlist hget
  exact ⟨b, h1, h3, by rw [Heap.get_ext hext h4]; exact h2⟩

set_option maxHeartbeats 2000000 in
theorem copy_fields {i : Instance} {h : Heap} {fuel : Nat} {c : Instance} {h' : Heap}
    (hc : Instance.copy i h fuel = some (c, h')) :
    ∃ q p, i.getattr "query" = some q ∧ i.getattr "jailbreak_prompt" = some p ∧
      c.getattr "id" = some (Value.vstr (MD5.md5Hex (utf8Encode (pyStr q ++ "|" ++ pyStr p)))) ∧
      c.getattr "index" = some Value.vnone ∧
      Heap.Ext h h' ∧
      ∀ name ∈ ["reference_responses", "target_responses", "eval_results",
                "parents", "children"],
        ∀ a, i.getattr name = some (Value.vlist a) → a < h.lists.length →
          ∃ b, c.getattr name = some (Value.vlist b) ∧ h.lists.length ≤ b ∧
            h'.get b = h.get a := by
  unfold Instance.copy at hc
  rw [Option.bind_eq_some] at hc
  obtain ⟨q, hq, hc⟩ := hc
  rw [Option.bind_eq_some] at hc
  obtain ⟨p, hp, hc⟩ := hc
  rw [Option.bind_eq_some] at hc
  obtain ⟨c1, h1, hc⟩ := hc
  rw [Option.bind_eq_some] at hc
  obtain ⟨c2, h2, hc⟩ := hc
  rw [Option.bind_eq_some] at hc
  obtain ⟨c3, h3, hc⟩ := hc
  rw [Option.bind_eq_some] at hc
  obtain ⟨c4, h4, hc⟩ := hc
  rw [Option.bind_eq_some] at hc
  obtain ⟨c5, h5, hc⟩ := hc
  rw [Option.bind_eq_some] at hc
  obtain ⟨av, haa, hc⟩ := hc
  rw [Option.bind_eq_some] at hc
  obtain ⟨c6, hdc, hc⟩ := hc
  simp only [Option.map_eq_some'] at hc
  obtain ⟨c7, h7, hc⟩ := hc
  rw [Prod.mk.injEq] at hc
  obtain ⟨hcc, hhh⟩ := hc
  subst hcc
  subst hhh
  -- specifications of the five fresh list copies
  obtain ⟨a1, xs1, hga1, hget1, hc1⟩ := fieldListCopy_spec h1
  obtain ⟨a2, xs2, hga2, hget2, hc2⟩ := fieldListCopy_spec h2
  obtain ⟨a3, xs3, hga3, hget3, hc3⟩ := fieldListCopy_spec h3
  obtain ⟨a4, xs4, hga4, hget4, hc4⟩ := fieldListCopy_spec h4
  obtain ⟨a5, xs5, hga5, hget5, hc5⟩ := fieldListCopy_spec h5
  -- heap extension chain
  have ext01 : Heap.Ext h c1.2 := by rw [hc1]; exact Heap.ext_alloc h xs1
  have ext12 : Heap.Ext c1.2 c2.2 := by rw [hc2]; exact Heap.ext_alloc c1.2 xs2
  have ext23 : Heap.Ext c2.2 c3.2 := by rw [hc3]; exact Heap.ext_alloc c2.2 xs3
  have ext34 : Heap.Ext c3.2 c4.2 := by rw [hc4]; exact Heap.ext_alloc c3.2 xs4
  have ext45 : Heap.Ext c4.2 c5.2 := by rw [hc5]; exact Heap.ext_alloc c4.2 xs5
  have ext56 : Heap.Ext c5.2 c6.2 := deepcopyVal_ext hdc
  have extK1 : Heap.Ext c6.2 (orEmptyList c1.1 c6.2).2 := orEmptyList_ext _ _
  have extK2 : Heap.Ext (orEmptyList c1.1 c6.2).2
      (orEmptyList c2.1 (orEmptyList c1.1 c6.2).2).2 := orEmptyList_ext _ _
  have extK3 : Heap.Ext (orEmptyList c2.1 (orEmptyList c1.1 c6.2).2).2
      (orEmptyList c3.1 (orEmptyList c2.1 (orEmptyList c1.1 c6.2).2).2).2 :=
    orEmptyList_ext _ _
  have extK4 : Heap.Ext
      (orEmptyList c3.1 (orEmptyList c2.1 (orEmptyList c1.1 c6.2).2).2).2
      (orEmptyList c4.1 (orEmptyList c3.1 (orEmptyList c2.1
        (orEmptyList c1.1 c6.2).2).2).2).2 := orEmptyList_ext _ _
  have extK5 : Heap.Ext
      (orEmptyList c4.1 (orEmptyList c3.1 (orEmptyList c2.1
        (orEmptyList c1.1 c6.2).2).2).2).2
      (orEmptyList c5.1 (orEmptyList c4.1 (orEmptyList c3.1 (orEmptyList c2.1
        (orEmptyList c1.1 c6.2).2).2).2).2).2 := orEmptyList_ext _ _
  have ext6i : Heap.Ext c6.2
      (initInstance q p c1.1 c2.1 c3.1 c4.1 c5.1 c6.1 [] c6.2).2 :=
    initInstance_ext q p c1.1 c2.1 c3.1 c4.1 c5.1 c6.1 [] c6.2
  have ext7 : Heap.Ext
      (initInstance q p c1.1 c2.1 c3.1 c4.1 c5.1 c6.1 [] c6.2).2 c7.2 :=
    deepcopyEntries_ext (fun v hh pp hpp => deepcopyVal_ext hpp) h7
  have extAll : Heap.Ext h c7.2 :=
    Heap.ext_trans ext01 (Heap.ext_trans ext12 (Heap.ext_trans ext23
      (Heap.ext_trans ext34 (Heap.ext_trans ext45 (Heap.ext_trans ext56
        (Heap.ext_trans ext6i ext7))))))
  -- keys of the deep-copied remainder avoid every key the constructor set
  have hkeysrest : ∀ kv ∈ c7.1,
      dictContains (initInstance q p c1.1 c2.1 c3.1 c4.1 c5.1 c6.1 [] c6.2).1.data
        kv.1 = false := by
    intro kv hkv
    have hmem : kv.1 ∈ c7.1.map Prod.fst := List.mem_map_of_mem Prod.fst hkv
    rw [deepcopyEntries_keys h7] at hmem
    obtain ⟨kv', hkv', hfst⟩ := List.mem_map.mp hmem
    have hf := List.of_mem_filter hkv'
    rw [← hfst]
    simpa using hf
  have hne : ∀ (k : String) (v : Value),
      (initInstance q p c1.1 c2.1 c3.1 c4.1 c5.1 c6.1 [] c6.2).1.getattr k = some v →
      ∀ kv ∈ c7.1, kv.1 ≠ k := by
    intro k v hg kv hkv he
    have hcf := hkeysrest kv hkv
    rw [he] at hcf
    rw [dictContains_of_getattr hg] at hcf
    exact Bool.noConfusion hcf
  refine ⟨q, p, hq, hp, ?_, ?_, extAll, ?_⟩
  · exact (dictGet_foldl_set c7.1 _
      (hne _ _ (initInstance_getattr_id_nil q p c1.1 c2.1 c3.1 c4.1 c5.1 c6.1 c6.2))).trans
      (initInstance_getattr_id_nil q p c1.1 c2.1 c3.1 c4.1 c5.1 c6.1 c6.2)
  · exact (dictGet_foldl_set c7.1 _
      (hne _ _ (initInstance_getattr_index q p c1.1 c2.1 c3.1 c4.1 c5.1 c6.1 c6.2))).trans
      (initInstance_getattr_index q p c1.1 c2.1 c3.1 c4.1 c5.1 c6.1 c6.2)
  · -- the five sequence fields get fresh list objects with the same contents
    have ext16 : Heap.Ext c1.2 c6.2 :=
      Heap.ext_trans ext12 (Heap.ext_trans ext23 (Heap.ext_trans ext34
        (Heap.ext_trans ext45 ext56)))
    have ext26 : Heap.Ext c2.2 c6.2 :=
      Heap.ext_trans ext23 (Heap.ext_trans ext34 (Heap.ext_trans ext45 ext56))
    have ext36 : Heap.Ext c3.2 c6.2 :=
      Heap.ext_trans ext34 (Heap.ext_trans ext45 ext56)
    have ext46 : Heap.Ext c4.2 c6.2 := Heap.ext_trans ext45 ext56
    have extI7 : Heap.Ext
        (orEmptyList c5.1 (orEmptyList c4.1 (orEmptyList c3.1 (orEmptyList c2.1
          (orEmptyList c1.1 c6.2).2).2).2).2).2 c7.2 := by
      rw [← initInstance_snd q p c1.1 c2.1 c3.1 c4.1 c5.1 c6.1 [] c6.2]
      exact ext7
    have extO1 : Heap.Ext (orEmptyList c1.1 c6.2).2 c7.2 :=
      Heap.ext_trans extK2 (Heap.ext_trans extK3 (Heap.ext_trans extK4
        (Heap.ext_trans extK5 extI7)))
    have extO2 : Heap.Ext (orEmptyList c2.1 (orEmptyList c1.1 c6.2).2).2 c7.2 :=
      Heap.ext_trans extK3 (Heap.ext_trans extK4 (Heap.ext_trans extK5 extI7))
    have extO3 : Heap.Ext (orEmptyList c3.1 (orEmptyList c2.1
        (orEmptyList c1.1 c6.2).2).2).2 c7.2 :=
      Heap.ext_trans extK4 (Heap.ext_trans extK5 extI7)
    have extO4 : Heap.Ext (orEmptyList c4.1 (orEmptyList c3.1 (orEmptyList c2.1
        (orEmptyList c1.1 c6.2).2).2).2).2 c7.2 :=
      Heap.ext_trans extK5 extI7
    have extO5 : Heap.Ext (orEmptyList c5.1 (orEmptyList c4.1 (orEmptyList c3.1
        (orEmptyList c2.1 (orEmptyList c1.1 c6.2).2).2).2).2).2 c7.2 := extI7
    intro name hname a ha halt
    simp only [List.mem_cons, List.not_mem_nil, or_false] at hname
    rcases hname with rfl | rfl | rfl | rfl | rfl
    · -- reference_responses
      rw [ha] at hga1
      simp only [Option.some_inj, Value.vlist.injEq] at hga1
      subst hga1
      have e11 : c1.1 = Value.vlist h.lists.length := by rw [hc1]
      have g1 : c1.2.get h.lists.length = some xs1 := by
        rw [hc1]; exact Heap.get_alloc_self h xs1
      have v1 : h.lists.length < c1.2.lists.length := by rw [hc1]; simp
      have g6 : c6.2.get h.lists.length = some xs1 := by
        rw [Heap.get_ext ext16 v1]; exact g1
      obtain ⟨b, hb1, hb2, hb3⟩ := orEmptyList_chain_spec g6 (e11 ▸ extO1)
      refine ⟨b, ?_, hb2, ?_⟩
      · refine ((dictGet_foldl_set c7.1 _
          (hne _ _ (initInstance_getattr_rr q p c1.1 c2.1 c3.1 c4.1 c5.1 c6.1 c6.2))).trans
          (initInstance_getattr_rr q p c1.1 c2.1 c3.1 c4.1 c5.1 c6.1 c6.2)).trans ?_
        rw [e11, hb1]
      · rw [hb3]; exact hget1.symm
    · -- target_responses
      rw [ha] at hga2
      simp only [Option.some_inj, Value.vlist.injEq] at hga2
      subst hga2
      have e21 : c2.1 = Value.vlist c1.2.lists.length := by rw [hc2]
      have g2 : c2.2.get c1.2.lists.length = some xs2 := by
        rw [hc2]; exact Heap.get_alloc_self c1.2 xs2
      have v2 : c1.2.lists.length < c2.2.lists.length := by rw [hc2]; simp
      have g6 : c6.2.get c1.2.lists.length = some xs2 := by
        rw [Heap.get_ext ext26 v2]; exact g2
      have gK : (orEmptyList c1.1 c6.2).2.get c1.2.lists.length = some xs2 := by
        rw [Heap.get_ext extK1 (lt_of_lt_of_le v2 (Heap.ext_length_le ext26))]
        exact g6
      obtain ⟨b, hb1, hb2, hb3⟩ := orEmptyList_chain_spec gK (e21 ▸ extO2)
      refine ⟨b, ?_, le_trans (Heap.ext_length_le ext01) hb2, ?_⟩
      · refine ((dictGet_foldl_set c7.1 _
          (hne _ _ (initInstance_getattr_tr q p c1.1 c2.1 c3.1 c4.1 c5.1 c6.1 c6.2))).trans
          (initInstance_getattr_tr q p c1.1 c2.1 c3.1 c4.1 c5.1 c6.1 c6.2)).trans ?_
        rw [e21, hb1]
      · rw [hb3, ← Heap.get_ext ext01 halt]; exact hget2.symm
    · -- eval_results
      rw [ha] at hga3
      simp only [Option.some_inj, Value.vlist.injEq] at hga3
      subst hga3
      have e31 : c3.1 = Value.vlist c2.2.lists.length := by rw [hc3]
      have g3 : c3.2.get c2.2.lists.length = some xs3 := by
        rw [hc3]; exact Heap.get_alloc_self c2.2 xs3
      have v3 : c2.2.lists.length < c3.2.lists.length := by rw [hc3]; simp
      have g6 : c6.2.get c2.2.lists.length = some xs3 := by
        rw [Heap.get_ext ext36 v3]; exact g3
      have vlt : c2.2.lists.length < c6.2.lists.length :=
        lt_of_lt_of_le v3 (Heap.ext_length_le ext36)
      have gK : (orEmptyList c2.1 (orEmptyList c1.1 c6.2).2).2.get
          c2.2.lists.length = some xs3 := by
        rw [Heap.get_ext (Heap.ext_trans extK1 extK2)
          vlt]
        exact g6
      obtain ⟨b, hb1, hb2, hb3⟩ := orEmptyList_chain_spec gK (e31 ▸ extO3)
      refine ⟨b, ?_, le_trans (Heap.ext_length_le (Heap.ext_trans ext01 ext12)) hb2, ?_⟩
      · refine ((dictGet_foldl_set c7.1 _
          (hne _ _ (initInstance_getattr_er q p c1.1 c2.1 c3.1 c4.1 c5.1 c6.1 c6.2))).trans
          (initInstance_getattr_er q p c1.1 c2.1 c3.1 c4.1 c5.1 c6.1 c6.2)).trans ?_
        rw [e31, hb1]
      · rw [hb3, ← Heap.get_ext (Heap.ext_trans ext01 ext12) halt]
        exact hget3.symm
    · -- parents
      rw [ha] at hga4
      simp only [Option.some_inj, Value.vlist.injEq] at hga4
      subst hga4
      have e41 : c4.1 = Value.vlist c3.2.lists.length := by rw [hc4]
      have g4 : c4.2.get c3.2.lists.length = some xs4 := by
        rw [hc4]; exact Heap.get_alloc_self c3.2 xs4
      have v4 : c3.2.lists.length < c4.2.lists.length := by rw [hc4]; simp
      have g6 : c6.2.get c3.2.lists.length = some xs4 := by
        rw [Heap.get_ext ext46 v4]; exact g4
      have vlt : c3.2.lists.length < c6.2.lists.length :=
        lt_of_lt_of_le v4 (Heap.ext_length_le ext46)
      have gK : (orEmptyList c3.1 (orEmptyList c2.1
          (orEmptyList c1.1 c6.2).2).2).2.get c3.2.lists.length = some xs4 := by
        rw [Heap.get_ext (Heap.ext_trans extK1 (Heap.ext_trans extK2 extK3)) vlt]
        exact g6
      obtain ⟨b, hb1, hb2, hb3⟩ := orEmptyList_chain_spec gK (e41 ▸ extO4)
      refine ⟨b, ?_, le_trans (Heap.ext_length_le (Heap.ext_trans ext01
        (Heap.ext_trans ext12 ext23))) hb2, ?_⟩
      · refine ((dictGet_foldl_set c7.1 _
          (hne _ _ (initInstance_getattr_pa q p c1.1 c2.1 c3.1 c4.1 c5.1 c6.1 c6.2))).trans
          (initInstance_getattr_pa q p c1.1 c2.1 c3.1 c4.1 c5.1 c6.1 c6.2)).trans ?_
        rw [e41, hb1]
      · rw [hb3, ← Heap.get_ext (Heap.ext_trans ext01
          (Heap.ext_trans ext12 ext23)) halt]
        exact hget4.symm
    · -- children
      rw [ha] at hga5
      simp only [Option.some_inj, Value.vlist.injEq] at hga5
      subst hga5
      have e51 : c5.1 = Value.vlist c4.2.lists.length := by rw [hc5]
      have g5 : c5.2.get c4.2.lists.length = some xs5 := by
        rw [hc5]; exact Heap.get_alloc_self c4.2 xs5
      have v5 : c4.2.lists.length < c5.2.lists.length := by rw [hc5]; simp
      have g6 : c6.2.get c4.2.lists.length = some xs5 := by
        rw [Heap.get_ext ext56 v5]; exact g5
      have vlt : c4.2.lists.length < c6.2.lists.length :=
        lt_of_lt_of_le v5 (Heap.ext_length_le ext56)
      have gK : (orEmptyList c4.1 (orEmptyList c3.1 (orEmptyList c2.1
          (orEmptyList c1.1 c6.2).2).2).2).2.get c4.2.lists.length = some xs5 := by
        rw [Heap.get_ext (Heap.ext_trans extK1 (Heap.ext_trans extK2
          (Heap.ext_trans extK3 extK4))) vlt]
        exact g6
      obtain ⟨b, hb1, hb2, hb3⟩ := orEmptyList_chain_spec gK (e51 ▸ extO5)
      refine ⟨b, ?_, le_trans (Heap.ext_length_le (Heap.ext_trans ext01
        (Heap.ext_trans ext12 (Heap.ext_trans ext23 ext34)))) hb2, ?_⟩
      · refine ((dictGet_foldl_set c7.1 _
          (hne _ _ (initInstance_getattr_ch q p c1.1 c2.1 c3.1 c4.1 c5.1 c6.1 c6.2))).trans
          (initInstance_getattr_ch q p c1.1 c2.1 c3.1 c4.1 c5.1 c6.1 c6.2)).trans ?_
        rw [e51, hb1]
      · rw [hb3, ← Heap.get_ext (Heap.ext_trans ext01 (Heap.ext_trans ext12
          (Heap.ext_trans ext23 ext34))) halt]
        exact hget5.symm

/-!
## `to_dict` lemmas
-/

theorem dictGet_filter_ne_key (d : Dict) (k : String) :
    dictGet (d.filter (fun kv => !(kv.1 == k))) k = none := by
  rw [dictGet_eq_none_iff]
  intro hmem
  obtain ⟨kv, hkv, hfst⟩ := List.mem_map.mp hmem
  have hpass := List.of_mem_filter hkv
  simp [hfst] at hpass

theorem dictGet_filter_other (d : Dict) {k k' : String} (hne : k' ≠ k) :
    dictGet (d.filter (fun kv => !(kv.1 == k))) k' = dictGet d k' := by
  induction d with
  | nil => simp
  | cons kv rest ih =>
    obtain ⟨k'', v''⟩ := kv
    by_cases hk : k'' = k
    · subst hk
      have : ¬ k'' = k' := fun hcon => hne hcon.symm
      simp [List.filter_cons, dictGet, this, ih]
    · by_cases hk2 : k'' = k'
      · simp [List.filter_cons, dictGet, hk, hk2, hne]
      · simp [List.filter_cons, dictGet, hk, hk2, ih]

theorem filter_eq_self_of_get_none {d : Dict} {k : String}
    (habs : dictGet d k = none) :
    d.filter (fun kv => !(kv.1 == k)) = d := by
  rw [List.filter_eq_self]
  intro kv hkv
  rw [dictGet_eq_none_iff] at habs
  have : kv.1 ≠ k := fun he => habs (he ▸ List.mem_map_of_mem Prod.fst hkv)
  simp [this]

theorem dictGet_append (d e : Dict) (k : String) :
    dictGet (d ++ e) k =
      (match dictGet d k with
       | some v => some v
       | none => dictGet e k) := by
  induction d with
  | nil => simp [dictGet]
  | cons kv rest ih =>
    obtain ⟨k', v'⟩ := kv
    by_cases hk : k' = k
    · simp [dictGet, hk]
    · simp [dictGet, hk, ih]

theorem restoreKey_shape (d : Dict) (k : String) (ov : Option Value)
    (habs : dictGet d k = none) :
    ∃ t, restoreKey d k ov = d ++ t ∧
      ((t = [] ∧ (ov = none ∨ ∃ v, ov = some v ∧ v.isNoneV = true)) ∨
       (∃ v, ov = some v ∧ v.isNoneV = false ∧ t = [(k, v)])) := by
  cases ov with
  | none => exact ⟨[], by simp [restoreKey], Or.inl ⟨rfl, Or.inl rfl⟩⟩
  | some v =>
    cases hn : v.isNoneV with
    | true =>
      refine ⟨[], ?_, Or.inl ⟨rfl, Or.inr ⟨v, rfl, hn⟩⟩⟩
      simp [restoreKey, hn]
    | false =>
      refine ⟨[(k, v)], ?_, Or.inr ⟨v, rfl, hn, rfl⟩⟩
      simp [restoreKey, hn, dictSet_eq_append v habs]

theorem restoreKey_wf {d : Dict} (hwf : DictWF d) (k : String) (ov : Option Value) :
    DictWF (restoreKey d k ov) := by
  cases ov with
  | none => exact hwf
  | some v =>
    cases hn : v.isNoneV with
    | true => simpa [restoreKey, hn] using hwf
    | false =>
      have := dictWF_set hwf k v
      simpa [restoreKey, hn] using this

theorem to_dict_proj (i : Instance) (h : Heap) (fuel : Nat) :
    Instance.to_dict i h fuel =
      (match resolveEntries (resolveVal h fuel)
          (dictPop (dictPop i.data "parents").2 "children").2 with
       | none => (none, ⟨(dictPop (dictPop i.data "parents").2 "children").2⟩)
       | some m =>
         (some m, ⟨restoreKey (restoreKey
            (dictPop (dictPop i.data "parents").2 "children").2 "parents"
            (dictPop i.data "parents").1) "children"
            (dictPop (dictPop i.data "parents").2 "children").1⟩)) := rfl


set_option maxHeartbeats 1000000 in
theorem to_dict_spec (i : Instance) (h : Heap) (fuel : Nat) (m : List (String × PureVal))
    (hwf : DictWF i.data)
    (hres : (Instance.to_dict i h fuel).1 = some m) :
    ("parents" ∉ m.map Prod.fst ∧ "children" ∉ m.map Prod.fst) ∧
    ((Instance.to_dict i h fuel).2.to_dict h fuel).1 = some m ∧
    ((∀ v, dictGet i.data "parents" = some v → v.isNoneV = false) →
     (∀ v, dictGet i.data "children" = some v → v.isNoneV = false) →
     ∀ k, dictContains (Instance.to_dict i h fuel).2.data k = dictContains i.data k) := by
  have hwf1 : DictWF (i.data.filter (fun kv => !(kv.1 == "parents"))) :=
    dictWF_of_sublist (List.filter_sublist _) hwf
  have e1 : (dictPop i.data "parents").2
      = i.data.filter (fun kv => !(kv.1 == "parents")) := dictPop_snd_of_wf hwf _
  set d1 := i.data.filter (fun kv => !(kv.1 == "parents")) with hd1
  set d2 := d1.filter (fun kv => !(kv.1 == "children")) with hd2
  have hwf2 : DictWF d2 := dictWF_of_sublist (List.filter_sublist _) hwf1
  have f1 : dictGet d2 "parents" = none := by
    rw [hd2, dictGet_filter_other d1 (by decide)]
    exact dictGet_filter_ne_key i.data "parents"
  have f2 : dictGet d2 "children" = none := dictGet_filter_ne_key d1 "children"
  cases hrm : resolveEntries (resolveVal h fuel) d2 with
  | none =>
    rw [to_dict_proj, e1, dictPop_snd_of_wf hwf1, ← hd2, hrm] at hres
    exact Option.noConfusion hres
  | some m' =>
    rw [to_dict_proj, e1, dictPop_snd_of_wf hwf1, ← hd2, hrm] at hres
    have hmm : m' = m := Option.some_inj.mp hres
    rw [hmm] at hrm
    have etd : Instance.to_dict i h fuel =
        (some m, ⟨restoreKey (restoreKey d2 "parents" (dictGet i.data "parents"))
          "children" (dictGet d1 "children")⟩) := by
      rw [to_dict_proj, e1, dictPop_snd_of_wf hwf1, ← hd2, hrm,
        dictPop_fst, dictPop_fst]
    obtain ⟨t1, ht1, ht1c⟩ := restoreKey_shape d2 "parents" (dictGet i.data "parents") f1
    have habs2 : dictGet (d2 ++ t1) "children" = none := by
      rw [dictGet_append, f2]
      rcases ht1c with ⟨rfl, _⟩ | ⟨v, _, _, rfl⟩
      · simp [dictGet]
      · simp [dictGet]
    obtain ⟨t2, ht2, ht2c⟩ := restoreKey_shape (d2 ++ t1) "children"
      (dictGet d1 "children") habs2
    have hR : restoreKey (restoreKey d2 "parents" (dictGet i.data "parents"))
        "children" (dictGet d1 "children") = (d2 ++ t1) ++ t2 := by
      rw [ht1, ht2]
    have hfilters : (((d2 ++ t1) ++ t2).filter (fun kv => !(kv.1 == "parents"))).filter
        (fun kv => !(kv.1 == "children")) = d2 := by
      rcases ht1c with ⟨rfl, hpv⟩ | ⟨v1, hv1, hn1, rfl⟩ <;>
        rcases ht2c with ⟨rfl, hcv⟩ | ⟨v2, hv2, hn2, rfl⟩ <;>
        simp [List.filter_append, filter_eq_self_of_get_none f1,
          filter_eq_self_of_get_none f2]
    refine ⟨⟨?_, ?_⟩, ?_, ?_⟩
    · have hk := resolveEntries_keys hrm
      rw [hk]
      exact (dictGet_eq_none_iff d2 "parents").mp f1
    · have hk := resolveEntries_keys hrm
      rw [hk]
      exact (dictGet_eq_none_iff d2 "children").mp f2
    · rw [etd]
      have hwfR : DictWF ((d2 ++ t1) ++ t2) := by
        rw [← hR]
        exact restoreKey_wf (restoreKey_wf hwf2 _ _) _ _
      have hwfR1 : DictWF (((d2 ++ t1) ++ t2).filter (fun kv => !(kv.1 == "parents"))) :=
        dictWF_of_sublist (List.filter_sublist _) hwfR
      show (Instance.to_dict ⟨restoreKey (restoreKey d2 "parents"
        (dictGet i.data "parents")) "children" (dictGet d1 "children")⟩ h fuel).1 = some m
      rw [to_dict_proj]
      simp only [hR]
      rw [dictPop_snd_of_wf hwfR, dictPop_snd_of_wf hwfR1, hfilters, hrm]
    · intro hpar hch k
      rw [etd]
      show dictContains (restoreKey (restoreKey d2 "parents"
        (dictGet i.data "parents")) "children" (dictGet d1 "children")) k
          = dictContains i.data k
      rw [hR]
      unfold dictContains
      have hd1c : dictGet d1 "children" = dictGet i.data "children" :=
        dictGet_filter_other i.data (by decide)
      by_cases kp : k = "parents"
      · subst kp
        rcases ht1c with ⟨rfl, hpv⟩ | ⟨v1, hv1, hn1, rfl⟩
        · rcases hpv with hpv | ⟨v, hv, hnv⟩
          · rw [hpv]
            rcases ht2c with ⟨rfl, _⟩ | ⟨v2, _, _, rfl⟩ <;>
              simp [dictGet_append, f1, dictGet]
          · exact absurd (hpar v hv) (by simp [hnv])
        · rw [hv1]
          rcases ht2c with ⟨rfl, _⟩ | ⟨v2, _, _, rfl⟩ <;>
            simp [dictGet_append, f1, dictGet]
      · by_cases kc : k = "children"
        · subst kc
          rcases ht2c with ⟨rfl, hcv⟩ | ⟨v2, hv2, hn2, rfl⟩
          · rcases hcv with hcv | ⟨v, hv, hnv⟩
            · rw [hd1c] at hcv
              rw [hcv]
              rcases ht1c with ⟨rfl, _⟩ | ⟨v1, _, _, rfl⟩ <;>
                simp [dictGet_append, f2, dictGet]
            · rw [hd1c] at hv
              exact absurd (hch v hv) (by simp [hnv])
          · rw [hd1c] at hv2
            rw [hv2]
            rcases ht1c with ⟨rfl, _⟩ | ⟨v1, _, _, rfl⟩ <;>
              simp [dictGet_append, f2, dictGet]
        · have hd2k : dictGet d2 k = dictGet i.data k := by
            rw [hd2, dictGet_filter_other d1 (fun hcon => kc hcon),
              hd1, dictGet_filter_other i.data (fun hcon => kp hcon)]
          cases hdk : dictGet i.data k with
          | some v =>
            rw [hdk] at hd2k
            simp [dictGet_append, hd2k, hdk]
          | none =>
            rw [hdk] at hd2k
            rcases ht1c with ⟨rfl, _⟩ | ⟨v1, _, _, rfl⟩ <;>
              rcases ht2c with ⟨rfl, _⟩ | ⟨v2, _, _, rfl⟩ <;>
              simp [dictGet_append, hd2k, hdk, dictGet, kp, kc,
                Ne.symm kp, Ne.symm kc]


theorem getattr_id_of_generate {i10 : Instance} {q p : Value}
    (hq : i10.getattr "query" = some q)
    (hp : i10.getattr "jailbreak_prompt" = some p) :
    (i10.setattr "id" (Value.vstr ((i10.generate_id).getD ""))).getattr "id"
      = some (Value.vstr (MD5.md5Hex (utf8Encode (pyStr q ++ "|" ++ pyStr p)))) := by
  unfold Instance.generate_id
  rw [hq, hp]
  exact getattr_setattr_self i10 "id" _

theorem initInstance_query_kwargs (q p rr tr er pa ch aa : Value)
    (kwargs : List (String × Value)) (h : Heap)
    (hkq : ∀ kv ∈ kwargs, kv.1 ≠ "query") :
    (initInstance q p rr tr er pa ch aa kwargs h).1.getattr "query" = some q := by
  show dictGet (dictSet (kwargs.foldl (fun d kv => dictSet d kv.1 kv.2) _) "id" _)
    "query" = some q
  rw [dictGet_set_ne _ (by decide)]
  rw [dictGet_foldl_set _ _ (fun kv hm => hkq kv hm)]
  rfl

theorem initInstance_jp_kwargs (q p rr tr er pa ch aa : Value)
    (kwargs : List (String × Value)) (h : Heap)
    (hkp : ∀ kv ∈ kwargs, kv.1 ≠ "jailbreak_prompt") :
    (initInstance q p rr tr er pa ch aa kwargs h).1.getattr "jailbreak_prompt"
      = some p := by
  show dictGet (dictSet (kwargs.foldl (fun d kv => dictSet d kv.1 kv.2) _) "id" _)
    "jailbreak_prompt" = some p
  rw [dictGet_set_ne _ (by decide)]
  rw [dictGet_foldl_set _ _ (fun kv hm => hkp kv hm)]
  rfl

theorem initInstance_getattr_id (q p rr tr er pa ch aa : Value)
    (kwargs : List (String × Value)) (h : Heap)
    (hkq : ∀ kv ∈ kwargs, kv.1 ≠ "query")
    (hkp : ∀ kv ∈ kwargs, kv.1 ≠ "jailbreak_prompt") :
    (initInstance q p rr tr er pa ch aa kwargs h).1.getattr "id"
      = some (Value.vstr (MD5.md5Hex (utf8Encode (pyStr q ++ "|" ++ pyStr p)))) := by
  have hq : (Instance.mk (kwargs.foldl (fun d kv => dictSet d kv.1 kv.2)
      [("query", q), ("jailbreak_prompt", p),
       ("reference_responses", (orEmptyList rr h).1),
       ("target_responses", (orEmptyList tr (orEmptyList rr h).2).1),
       ("eval_results", (orEmptyList er (orEmptyList tr (orEmptyList rr h).2).2).1),
       ("parents", (orEmptyList pa (orEmptyList er (orEmptyList tr
         (orEmptyList rr h).2).2).2).1),
       ("children", (orEmptyList ch (orEmptyList pa (orEmptyList er (orEmptyList tr
         (orEmptyList rr h).2).2).2).2).1),
       ("index", Value.vnone),
       ("attack_attrs", if truthy (orEmptyList ch (orEmptyList pa (orEmptyList er
         (orEmptyList tr (orEmptyList rr h).2).2).2).2).2 aa then aa
         else defaultAttackAttrs)])).getattr "query" = some q := by
    show dictGet (kwargs.foldl (fun d kv => dictSet d kv.1 kv.2) _) "query" = some q
    rw [dictGet_foldl_set _ _ (fun kv hm => hkq kv hm)]
    rfl
  have hp : (Instance.mk (kwargs.foldl (fun d kv => dictSet d kv.1 kv.2)
      [("query", q), ("jailbreak_prompt", p),
       ("reference_responses", (orEmptyList rr h).1),
       ("target_responses", (orEmptyList tr (orEmptyList rr h).2).1),
       ("eval_results", (orEmptyList er (orEmptyList tr (orEmptyList rr h).2).2).1),
       ("parents", (orEmptyList pa (orEmptyList er (orEmptyList tr
         (orEmptyList rr h).2).2).2).1),
       ("children", (orEmptyList ch (orEmptyList pa (orEmptyList er (orEmptyList tr
         (orEmptyList rr h).2).2).2).2).1),
       ("index", Value.vnone),
       ("attack_attrs", if truthy (orEmptyList ch (orEmptyList pa (orEmptyList er
         (orEmptyList tr (orEmptyList rr h).2).2).2).2).2 aa then aa
         else defaultAttackAttrs)])).getattr "jailbreak_prompt" = some p := by
    show dictGet (kwargs.foldl (fun d kv => dictSet d kv.1 kv.2) _) "jailbreak_prompt"
      = some p
    rw [dictGet_foldl_set _ _ (fun kv hm => hkp kv hm)]
    rfl
  exact getattr_id_of_generate hq hp



theorem length_toLEBytes (n c : Nat) : (MD5.toLEBytes n c).length = c := by
  induction c generalizing n with
  | zero => rfl
  | succ c ih => simp [MD5.toLEBytes, ih]

theorem length_md5Bytes (msg : List Nat) : (MD5.md5Bytes msg).length = 16 := by
  unfold MD5.md5Bytes
  simp [length_toLEBytes]

theorem length_flatten_byteHex (bs : List Nat) :
    ((bs.map MD5.byteHex).flatten).length = 2 * bs.length := by
  induction bs with
  | nil => rfl
  | cons b rest ih =>
    simp [MD5.byteHex, ih]
    omega

theorem md5Hex_length (msg : List Nat) : (MD5.md5Hex msg).length = 32 := by
  show ((((MD5.md5Bytes msg).map MD5.byteHex).flatten)).length = 32
  rw [length_flatten_byteHex, length_md5Bytes]

theorem hexDigitChar_mem {k : Nat} (hk : k < 16) :
    MD5.hexDigitChar k ∈ ("0123456789abcdef").data := by
  exact (by decide : ∀ k' < 16, MD5.hexDigitChar k' ∈ ("0123456789abcdef").data) k hk

theorem md5Hex_chars (msg : List Nat) :
    ∀ c ∈ (MD5.md5Hex msg).data, c ∈ ("0123456789abcdef").data := by
  intro c hc
  have hc' : c ∈ ((MD5.md5Bytes msg).map MD5.byteHex).flatten := hc
  obtain ⟨l, hl, hcl⟩ := List.mem_flatten.mp hc'
  obtain ⟨b, hb, rfl⟩ := List.mem_map.mp hl
  rcases List.mem_cons.mp hcl with rfl | h1
  · exact hexDigitChar_mem (Nat.mod_lt _ (by omega))
  · rcases List.mem_cons.mp h1 with rfl | h2
    · exact hexDigitChar_mem (Nat.mod_lt _ (by omega))
    · simp at h2



theorem md5_vector_empty : MD5.md5Hex (utf8Encode "") = "d41d8cd98f00b204e9800998ecf8427e" := by
  rfl

theorem md5_vector_abc : MD5.md5Hex (utf8Encode "abc") = "900150983cd24fb0d6963f7d28e17f72" := by
  rfl

set_option maxRecDepth 100000 in
/-- C1: the claim quantifies over all Records, including mutated ones; it
fails on the code.  A record built with query `'test'`, prompt
`'test_prompt'` and then mutated to query `'other'` keeps its stale id
(digest of `"test|test_prompt"`), while its copy recomputes the id from the
current fields (digest of `"other|test_prompt"`), so `r.copy().id ≠ r.id`. -/
theorem C1_counterexample :
    ((Instance.copy (instance1.1.setattr "query" (Value.vstr "other"))
        instance1.2 5).bind (fun pr => pr.1.getattr "id"))
      = some (Value.vstr "8a66df8ef2bb1940ca26100883c636a7") ∧
    (instance1.1.setattr "query" (Value.vstr "other")).getattr "id"
      = some (Value.vstr "732a9994096b2573ddc05cc82df401b6") ∧
    ("8a66df8ef2bb1940ca26100883c636a7" : String)
      ≠ "732a9994096b2573ddc05cc82df401b6" := by
  refine ⟨rfl, rfl, by decide⟩

/-- C1 (amended): for every Record whose stored `id` equals the digest of
its current `query` and `jailbreak_prompt` — in particular any Record whose
`query`/`jailbreak_prompt`/`id` have not been mutated since construction —
the copy's `id` equals the original's `id`. -/
theorem C1_copy_id {i : Instance} {h : Heap} {fuel : Nat} {c : Instance}
    {h' : Heap} {qv pv : Value}
    (hq : i.getattr "query" = some qv)
    (hp : i.getattr "jailbreak_prompt" = some pv)
    (hid : i.getattr "id" = some (Value.vstr (MD5.md5Hex (utf8Encode
      (pyStr qv ++ "|" ++ pyStr pv)))))
    (hc : Instance.copy i h fuel = some (c, h')) :
    c.getattr "id" = i.getattr "id" := by
  obtain ⟨q', p', hq', hp', hcid, _, _, _⟩ := copy_fields hc
  rw [hq] at hq'
  rw [hp] at hp'
  rw [hcid, hid, Option.some_inj.mp hq', Option.some_inj.mp hp']

set_option maxRecDepth 100000 in
set_option maxHeartbeats 1000000 in
theorem C1_copy_id_witness :
    ∃ c h', Instance.copy instance1.1 instance1.2 5 = some (c, h') ∧
      c.getattr "id" = instance1.1.getattr "id" := by
  refine ⟨_, _, rfl, @C1_copy_id instance1.1 instance1.2 5 _ _ _ _ rfl rfl rfl rfl⟩



set_option maxRecDepth 100000 in
/-- C2: the claim fails on the code as universally stated.  A record whose
`parents` field was set to `None` has `'parents'` among its stored field
names before `to_dict()`, but not after: `pop` hands `to_dict` the stored
`None`, and the `is not None` restore guard then drops the key for good. -/
theorem C2_counterexample :
    dictContains (instance1.1.setattr "parents" Value.vnone).data "parents" = true ∧
    dictContains ((instance1.1.setattr "parents" Value.vnone).to_dict
      instance1.2 5).2.data "parents" = false := by
  exact ⟨rfl, rfl⟩

/-- C2 (amended): `to_dict()` returns a mapping without `parents`/`children`
keys, and calling it twice in a row returns the same mapping; the Record's
stored field-name set is unchanged by the call provided the
`parents`/`children` fields, when present, do not hold `None` (a lineage
field stored as `None` is dropped from the record's storage by the call). -/
theorem C2_to_dict (i : Instance) (h : Heap) (fuel : Nat)
    (m : List (String × PureVal)) (hwf : DictWF i.data)
    (hres : (Instance.to_dict i h fuel).1 = some m) :
    ("parents" ∉ m.map Prod.fst ∧ "children" ∉ m.map Prod.fst) ∧
    ((Instance.to_dict i h fuel).2.to_dict h fuel).1 = some m ∧
    ((∀ v, dictGet i.data "parents" = some v → v.isNoneV = false) →
     (∀ v, dictGet i.data "children" = some v → v.isNoneV = false) →
     ∀ k, dictContains (Instance.to_dict i h fuel).2.data k = dictContains i.data k) :=
  to_dict_spec i h fuel m hwf hres

set_option maxRecDepth 100000 in
set_option maxHeartbeats 1000000 in
theorem C2_to_dict_witness :
    ∃ m, (Instance.to_dict instance1.1 instance1.2 5).1 = some m ∧
      (("parents" ∉ m.map Prod.fst ∧ "children" ∉ m.map Prod.fst) ∧
       ((Instance.to_dict instance1.1 instance1.2 5).2.to_dict instance1.2 5).1 = some m ∧
       ((∀ v, dictGet instance1.1.data "parents" = some v → v.isNoneV = false) →
        (∀ v, dictGet instance1.1.data "children" = some v → v.isNoneV = false) →
        ∀ k, dictContains (Instance.to_dict instance1.1 instance1.2 5).2.data k
          = dictContains instance1.1.data k)) := by
  refine ⟨_, rfl, C2_to_dict instance1.1 instance1.2 5 _ (by decide) rfl⟩

/-- C3: any two Records constructed with the same `query=q` and
`jailbreak_prompt=p` (strings) are assigned the same `id`, whatever the
other constructor arguments and extra keyword fields are; that shared `id`
is the md5 hexdigest of the UTF-8 bytes of `"{q}|{p}"` — 32 lower-case hex
characters encoding a 128-bit digest.  (The keyword-argument hypotheses
mirror Python's rule that a kwarg may not repeat a declared parameter.) -/
theorem C3_id_deterministic (q p : String) (rr tr er pa ch aa : Value)
    (kwargs : List (String × Value)) (h : Heap)
    (rr' tr' er' pa' ch' aa' : Value) (kwargs' : List (String × Value)) (h' : Heap)
    (hkw : ∀ kv ∈ kwargs, kv.1 ≠ "query" ∧ kv.1 ≠ "jailbreak_prompt")
    (hkw' : ∀ kv ∈ kwargs', kv.1 ≠ "query" ∧ kv.1 ≠ "jailbreak_prompt") :
    (initInstance (Value.vstr q) (Value.vstr p) rr tr er pa ch aa kwargs h).1.getattr "id"
      = some (Value.vstr (MD5.md5Hex (utf8Encode (q ++ "|" ++ p)))) ∧
    (initInstance (Value.vstr q) (Value.vstr p) rr' tr' er' pa' ch' aa' kwargs'
      h').1.getattr "id"
      = some (Value.vstr (MD5.md5Hex (utf8Encode (q ++ "|" ++ p)))) ∧
    (MD5.md5Hex (utf8Encode (q ++ "|" ++ p))).length = 32 ∧
    (∀ c ∈ (MD5.md5Hex (utf8Encode (q ++ "|" ++ p))).data,
      c ∈ ("0123456789abcdef").data) :=
  ⟨initInstance_getattr_id (Value.vstr q) (Value.vstr p) rr tr er pa ch aa kwargs h
      (fun kv hm => (hkw kv hm).1) (fun kv hm => (hkw kv hm).2),
   initInstance_getattr_id (Value.vstr q) (Value.vstr p) rr' tr' er' pa' ch' aa'
      kwargs' h' (fun kv hm => (hkw' kv hm).1) (fun kv hm => (hkw' kv hm).2),
   md5Hex_length _, md5Hex_chars _⟩

set_option maxRecDepth 100000 in
theorem C3_id_deterministic_witness :
    (initInstance (Value.vstr "test") (Value.vstr "test_prompt") Value.vnone
      Value.vnone Value.vnone Value.vnone Value.vnone Value.vnone
      [("extra", Value.vint 7)] ⟨[]⟩).1.getattr "id"
      = some (Value.vstr (MD5.md5Hex (utf8Encode ("test" ++ "|" ++ "test_prompt")))) ∧
    (initInstance (Value.vstr "test") (Value.vstr "test_prompt") Value.vnone
      (Value.vlist 0) (Value.vlist 1) Value.vnone Value.vnone Value.vnone []
      exampleHeap).1.getattr "id"
      = some (Value.vstr (MD5.md5Hex (utf8Encode ("test" ++ "|" ++ "test_prompt")))) ∧
    (MD5.md5Hex (utf8Encode ("test" ++ "|" ++ "test_prompt"))).length = 32 ∧
    (∀ c ∈ (MD5.md5Hex (utf8Encode ("test" ++ "|" ++ "test_prompt"))).data,
      c ∈ ("0123456789abcdef").data) :=
  C3_id_deterministic "test" "test_prompt" Value.vnone Value.vnone Value.vnone
    Value.vnone Value.vnone Value.vnone [("extra", Value.vint 7)] ⟨[]⟩
    Value.vnone (Value.vlist 0) (Value.vlist 1) Value.vnone Value.vnone
    Value.vnone [] exampleHeap (by decide) (by decide)



/-- C4: the clone produced by `copy()` carries its own top-level list
objects for the five sequence fields — mutating the clone's list (modelled
as replacing the contents at its heap address) leaves the original's list
unchanged, and vice versa — while the list contents (for `parents` and
`children`: the very same record references, not deep clones) are equal to
the original's at the time of the copy.  The address-validity hypothesis
says the original's field points at a list object in the pre-copy heap. -/
theorem C4_copy_sequences {i : Instance} {h : Heap} {fuel : Nat} {c : Instance}
    {h' : Heap} (hc : Instance.copy i h fuel = some (c, h')) :
    ∀ name ∈ ["reference_responses", "target_responses", "eval_results",
              "parents", "children"],
      ∀ a, i.getattr name = some (Value.vlist a) → a < h.lists.length →
        ∃ b, c.getattr name = some (Value.vlist b) ∧ b ≠ a ∧
          h'.get b = h.get a ∧
          (∀ xs, (h'.mutate b xs).get a = h'.get a) ∧
          (∀ xs, (h'.mutate a xs).get b = h'.get b) := by
  obtain ⟨q, p, _, _, _, _, hext, hfive⟩ := copy_fields hc
  intro name hname a ha halt
  obtain ⟨b, hb1, hb2, hb3⟩ := hfive name hname a ha halt
  have hne : b ≠ a := fun he => absurd (he ▸ hb2) (Nat.not_le_of_lt halt)
  exact ⟨b, hb1, hne, hb3,
    fun xs => Heap.get_mutate_ne h' hne xs,
    fun xs => Heap.get_mutate_ne h' (Ne.symm hne) xs⟩

set_option maxRecDepth 400000 in
set_option maxHeartbeats 2000000 in
theorem C4_copy_sequences_witness :
    ∃ c h', Instance.copy instance4.1 instance4.2 5 = some (c, h') ∧
      ∃ b, c.getattr "parents" = some (Value.vlist b) ∧ b ≠ 3 ∧
        h'.get b = instance4.2.get 3 ∧
        (∀ xs, (h'.mutate b xs).get 3 = h'.get 3) ∧
        (∀ xs, (h'.mutate 3 xs).get b = h'.get b) := by
  refine ⟨_, _, rfl, @C4_copy_sequences instance4.1 instance4.2 5 _ _ rfl
    "parents" (by decide) 3 rfl (by decide)⟩



set_option maxRecDepth 100000 in
/-- C5: `num_query` is the length of `target_responses`, `num_jailbreak` the
sum of `eval_results`, `num_reject` their length minus that sum; in
particular the record built with no response lists has statistics (0, 0, 0),
the one built with `target_responses=['a','b']`, `eval_results=[1,0]` has
(2, 1, 1), and the two share the same `id`. -/
theorem C5_num_stats (i : Instance) (h : Heap) (a b : Nat)
    (ts es : List Value) (s : Int)
    (hts : i.getattr "target_responses" = some (Value.vlist a))
    (hg : h.get a = some ts)
    (hes : i.getattr "eval_results" = some (Value.vlist b))
    (hg2 : h.get b = some es)
    (hsum : pySum es = some s) :
    (i.num_query h = some ts.length ∧
     i.num_jailbreak h = some s ∧
     i.num_reject h = some ((es.length : Int) - s)) ∧
    (instance1.1.num_query instance1.2 = some 0 ∧
     instance1.1.num_jailbreak instance1.2 = some 0 ∧
     instance1.1.num_reject instance1.2 = some 0) ∧
    (instance2.1.num_query instance2.2 = some 2 ∧
     instance2.1.num_jailbreak instance2.2 = some 1 ∧
     instance2.1.num_reject instance2.2 = some 1 ∧
     instance2.1.getattr "id" = instance1.1.getattr "id") := by
  refine ⟨⟨?_, ?_, ?_⟩, ⟨rfl, rfl, rfl⟩, ⟨rfl, rfl, rfl, rfl⟩⟩
  · simp [Instance.num_query, hts, hg]
  · simp [Instance.num_jailbreak, hes, hg2, hsum]
  · simp [Instance.num_reject, hes, hg2, hsum]

set_option maxRecDepth 100000 in
theorem C5_num_stats_witness :
    ((instance2.1.num_query instance2.2 = some ([Value.vstr "a", Value.vstr "b"].length) ∧
      instance2.1.num_jailbreak instance2.2 = some 1 ∧
      instance2.1.num_reject instance2.2
        = some (([Value.vint 1, Value.vint 0].length : Int) - 1)) ∧
     (instance1.1.num_query instance1.2 = some 0 ∧
      instance1.1.num_jailbreak instance1.2 = some 0 ∧
      instance1.1.num_reject instance1.2 = some 0) ∧
     (instance2.1.num_query instance2.2 = some 2 ∧
      instance2.1.num_jailbreak instance2.2 = some 1 ∧
      instance2.1.num_reject instance2.2 = some 1 ∧
      instance2.1.getattr "id" = instance1.1.getattr "id")) :=
  C5_num_stats instance2.1 instance2.2 0 1 [Value.vstr "a", Value.vstr "b"]
    [Value.vint 1, Value.vint 0] 1 rfl rfl rfl rfl rfl

theorem getattr_id_foldl_writes {v : Value} :
    ∀ (writes : List (String × Value)) (r : Instance),
      r.getattr "id" = some v →
      (∀ w ∈ writes, w.1 = "query" ∨ w.1 = "jailbreak_prompt") →
      (writes.foldl (fun r' w => r'.setattr w.1 w.2) r).getattr "id" = some v := by
  intro writes
  induction writes with
  | nil => intro r hr _; exact hr
  | cons w ws ih =>
    intro r hr hw
    rw [List.foldl_cons]
    refine ih _ ?_ (fun w' hm => hw w' (List.mem_cons_of_mem w hm))
    have hne : w.1 ≠ "id" := by
      rcases hw w (List.mem_cons_self w ws) with he | he <;> rw [he] <;> decide
    rw [getattr_setattr_ne r hne]
    exact hr

/-- C6: `id` is assigned exactly once, at construction; any later sequence
of writes to `query` or `jailbreak_prompt` (attribute-style and key-style
writes are the same operation: `__setitem__` delegates to `__setattr__`)
leaves `id` at the digest of the construction-time values. -/
theorem C6_id_stable (q p rr tr er pa ch aa : Value)
    (kwargs : List (String × Value)) (h : Heap)
    (writes : List (String × Value))
    (hkq : ∀ kv ∈ kwargs, kv.1 ≠ "query")
    (hkp : ∀ kv ∈ kwargs, kv.1 ≠ "jailbreak_prompt")
    (hw : ∀ w ∈ writes, w.1 = "query" ∨ w.1 = "jailbreak_prompt") :
    (writes.foldl (fun r w => r.setattr w.1 w.2)
        (initInstance q p rr tr er pa ch aa kwargs h).1).getattr "id"
      = some (Value.vstr (MD5.md5Hex (utf8Encode (pyStr q ++ "|" ++ pyStr p)))) ∧
    Instance.setitem = Instance.setattr :=
  ⟨getattr_id_foldl_writes writes _
    (initInstance_getattr_id q p rr tr er pa ch aa kwargs h hkq hkp) hw, rfl⟩

set_option maxRecDepth 100000 in
theorem C6_id_stable_witness :
    ([("query", Value.vstr "zzz"), ("jailbreak_prompt", Value.vnone)].foldl
        (fun r w => r.setattr w.1 w.2)
        (initInstance (Value.vstr "test") (Value.vstr "test_prompt") Value.vnone
          Value.vnone Value.vnone Value.vnone Value.vnone Value.vnone [] ⟨[]⟩).1).getattr
        "id"
      = some (Value.vstr (MD5.md5Hex (utf8Encode
          (pyStr (Value.vstr "test") ++ "|" ++ pyStr (Value.vstr "test_prompt"))))) ∧
    Instance.setitem = Instance.setattr :=
  C6_id_stable (Value.vstr "test") (Value.vstr "test_prompt") Value.vnone
    Value.vnone Value.vnone Value.vnone Value.vnone Value.vnone [] ⟨[]⟩
    [("query", Value.vstr "zzz"), ("jailbreak_prompt", Value.vnone)]
    (by decide) (by decide) (by decide)



/-- C7: attribute-style and key-style access go through the same flat field
mapping: the read and write operations of the two styles are the same
functions, a value written through either style is read back through either
style, and deleting the field removes it from both styles at once.  The
`n ≠ "_data"` hypothesis excludes the private storage slot itself, which is
not a field of the mapping. -/
theorem C7_access_equiv (i : Instance) (n : String) (v : Value)
    (hn : n ≠ "_data") (hwf : DictWF i.data) :
    i.getitem n = i.getattr n ∧
    Instance.setitem i n v = Instance.setattr i n v ∧
    ((i.setattr n v).getattr n = some v ∧ (i.setattr n v).getitem n = some v ∧
     (i.setitem n v).getattr n = some v ∧ (i.setitem n v).getitem n = some v) ∧
    ((Instance.delete (i.setattr n v) [n]).1 = none ∧
     (Instance.delete (i.setattr n v) [n]).2.getattr n = none ∧
     (Instance.delete (i.setattr n v) [n]).2.getitem n = none) := by
  have hset : dictGet (dictSet i.data n v) n = some v := dictGet_set_self i.data n v
  have hdel : dictDel (dictSet i.data n v) n ≠ none := by
    rw [ne_eq, dictDel_eq_none_iff, hset]
    simp
  cases hd : dictDel (dictSet i.data n v) n with
  | none => exact absurd hd hdel
  | some d' =>
    have hgone : dictGet d' n = none := dictDel_keys_of_wf (dictWF_set hwf n v) hd
    refine ⟨rfl, rfl, ⟨getattr_setattr_self i n v, getattr_setattr_self i n v,
      getattr_setattr_self i n v, getattr_setattr_self i n v⟩, ?_, ?_, ?_⟩
    · show (Instance.delete ⟨dictSet i.data n v⟩ [n]).1 = none
      simp [Instance.delete, hd]
    · show (Instance.delete ⟨dictSet i.data n v⟩ [n]).2.getattr n = none
      simp [Instance.delete, hd]
      exact hgone
    · show (Instance.delete ⟨dictSet i.data n v⟩ [n]).2.getitem n = none
      simp [Instance.delete, Instance.getitem, hd]
      exact hgone

theorem C7_access_equiv_witness :
    (instance1.1.getitem "mutation_note" = instance1.1.getattr "mutation_note" ∧
     Instance.setitem instance1.1 "mutation_note" (Value.vstr "m")
       = Instance.setattr instance1.1 "mutation_note" (Value.vstr "m") ∧
     ((instance1.1.setattr "mutation_note" (Value.vstr "m")).getattr "mutation_note"
        = some (Value.vstr "m") ∧
      (instance1.1.setattr "mutation_note" (Value.vstr "m")).getitem "mutation_note"
        = some (Value.vstr "m") ∧
      (instance1.1.setitem "mutation_note" (Value.vstr "m")).getattr "mutation_note"
        = some (Value.vstr "m") ∧
      (instance1.1.setitem "mutation_note" (Value.vstr "m")).getitem "mutation_note"
        = some (Value.vstr "m")) ∧
     ((Instance.delete (instance1.1.setattr "mutation_note" (Value.vstr "m"))
        ["mutation_note"]).1 = none ∧
      (Instance.delete (instance1.1.setattr "mutation_note" (Value.vstr "m"))
        ["mutation_note"]).2.getattr "mutation_note" = none ∧
      (Instance.delete (instance1.1.setattr "mutation_note" (Value.vstr "m"))
        ["mutation_note"]).2.getitem "mutation_note" = none)) :=
  C7_access_equiv instance1.1 "mutation_note" (Value.vstr "m")
    (by decide) (by decide)

/-- C8: reading an absent field fails (attribute- and key-style alike) and
deleting an absent field fails naming the key, with the record unchanged;
reading a present field always succeeds with the stored value — no other
validation exists.  In particular, after setting an extra field, deleting it
succeeds, a subsequent read of it fails, and a second delete fails. -/
theorem C8_errors (i : Instance) (n : String) (v : Value)
    (hwf : DictWF i.data) (habs : dictGet i.data n = none) :
    (i.getattr n = none ∧ i.getitem n = none) ∧
    Instance.delete i [n] = (some n, i) ∧
    (∀ (r : Instance) (k : String) (w : Value),
      dictGet r.data k = some w → r.getattr k = some w ∧ r.getitem k = some w) ∧
    ((Instance.delete (i.setattr n v) [n]).1 = none ∧
     (Instance.delete (i.setattr n v) [n]).2.getattr n = none ∧
     (Instance.delete ((Instance.delete (i.setattr n v) [n]).2) [n]).1 = some n) := by
  have hdelnone : dictDel i.data n = none := (dictDel_eq_none_iff i.data n).mpr habs
  have hset : dictGet (dictSet i.data n v) n = some v := dictGet_set_self i.data n v
  have hdel : dictDel (dictSet i.data n v) n ≠ none := by
    rw [ne_eq, dictDel_eq_none_iff, hset]
    simp
  cases hd : dictDel (dictSet i.data n v) n with
  | none => exact absurd hd hdel
  | some d' =>
    have hgone : dictGet d' n = none := dictDel_keys_of_wf (dictWF_set hwf n v) hd
    refine ⟨⟨habs, habs⟩, ?_, fun r k w hg => ⟨hg, hg⟩, ?_, ?_, ?_⟩
    · simp [Instance.delete, hdelnone]
    · show (Instance.delete ⟨dictSet i.data n v⟩ [n]).1 = none
      simp [Instance.delete, hd]
    · show (Instance.delete ⟨dictSet i.data n v⟩ [n]).2.getattr n = none
      simp [Instance.delete, hd]
      exact hgone
    · show (Instance.delete ((Instance.delete ⟨dictSet i.data n v⟩ [n]).2) [n]).1
        = some n
      simp [Instance.delete, hd, (dictDel_eq_none_iff d' n).mpr hgone]

theorem C8_errors_witness :
    ((instance1.1.getattr "mutation_note" = none ∧
      instance1.1.getitem "mutation_note" = none) ∧
     Instance.delete instance1.1 ["mutation_note"] = (some "mutation_note", instance1.1) ∧
     (∀ (r : Instance) (k : String) (w : Value),
       dictGet r.data k = some w → r.getattr k = some w ∧ r.getitem k = some w) ∧
     ((Instance.delete (instance1.1.setattr "mutation_note" (Value.vint 3))
        ["mutation_note"]).1 = none ∧
      (Instance.delete (instance1.1.setattr "mutation_note" (Value.vint 3))
        ["mutation_note"]).2.getattr "mutation_note" = none ∧
      (Instance.delete ((Instance.delete (instance1.1.setattr "mutation_note"
        (Value.vint 3)) ["mutation_note"]).2) ["mutation_note"]).1
        = some "mutation_note")) :=
  C8_errors instance1.1 "mutation_note" (Value.vint 3) (by decide) rfl



/-- C9: the clone is constructed first — setting its `index` to `None` and
its `id` to the freshly computed digest — and only fields absent from the
clone's storage are copied over afterwards, so the clone's `index` is `None`
even when the original's `index` holds an integer, and the clone's `id` is
the recomputed digest of the original's current `query`/`jailbreak_prompt`,
not the original's stored `id`. -/
theorem C9_copy_index {i : Instance} {h : Heap} {fuel : Nat} {c : Instance}
    {h' : Heap} {qv pv : Value} {k : Int}
    (hq : i.getattr "query" = some qv)
    (hp : i.getattr "jailbreak_prompt" = some pv)
    (hidx : i.getattr "index" = some (Value.vint k))
    (hc : Instance.copy i h fuel = some (c, h')) :
    c.getattr "index" = some Value.vnone ∧
    c.getattr "id" = some (Value.vstr (MD5.md5Hex (utf8Encode
      (pyStr qv ++ "|" ++ pyStr pv)))) := by
  obtain ⟨q', p', hq', hp', hcid, hcidx, _, _⟩ := copy_fields hc
  rw [hq] at hq'
  rw [hp] at hp'
  refine ⟨hcidx, ?_⟩
  rw [hcid, Option.some_inj.mp hq', Option.some_inj.mp hp']

set_option maxRecDepth 400000 in
set_option maxHeartbeats 2000000 in
theorem C9_copy_index_witness :
    ∃ c h', Instance.copy (instance1.1.setattr "index" (Value.vint 7))
        instance1.2 5 = some (c, h') ∧
      (c.getattr "index" = some Value.vnone ∧
       c.getattr "id" = some (Value.vstr (MD5.md5Hex (utf8Encode
         (pyStr (Value.vstr "test") ++ "|" ++ pyStr (Value.vstr "test_prompt")))))) := by
  refine ⟨_, _, rfl, @C9_copy_index (instance1.1.setattr "index" (Value.vint 7))
    instance1.2 5 _ _ _ _ 7 rfl rfl rfl rfl⟩

/-- C10: `delete(*keys)` removes the keys one by one in argument order and
is not atomic on error: when a key is missing, the keys before it have
already been removed from storage (and stay removed), the error names the
missing key, and the record is left in exactly that partially-deleted
state — the keys after the missing one are untouched. -/
theorem C10_delete_partial (i : Instance) (pre rest : List String) (bad : String)
    (hwf : DictWF i.data) {i₁ : Instance}
    (hpre : Instance.delete i pre = (none, i₁))
    (hbad : dictGet i₁.data bad = none) :
    Instance.delete i (pre ++ bad :: rest) = (some bad, i₁) ∧
    (∀ k ∈ pre, dictGet i₁.data k = none) := by
  constructor
  · rw [delete_append, hpre]
    show Instance.delete i₁ (bad :: rest) = (some bad, i₁)
    simp [Instance.delete, (dictDel_eq_none_iff i₁.data bad).mpr hbad]
  · exact delete_success_removed hwf hpre

theorem C10_delete_partial_witness :
    Instance.delete ⟨[("a", Value.vint 1), ("b", Value.vint 2), ("c", Value.vint 3)]⟩
        (["a", "b"] ++ "zz" :: ["c"])
      = (some "zz", ⟨[("c", Value.vint 3)]⟩) ∧
    (∀ k ∈ ["a", "b"],
      dictGet (Instance.mk [("c", Value.vint 3)]).data k = none) :=
  C10_delete_partial ⟨[("a", Value.vint 1), ("b", Value.vint 2), ("c", Value.vint 3)]⟩
    ["a", "b"] ["c"] "zz" (by decide) rfl rfl


end EasyJailbreak
